import Mathlib

/-!
# Verification of `matgendb/creator.py`

Shallow embedding of the `VaspToDbTaskDrone` module: a drone that assimilates
VASP output directories into task documents and inserts them into a Mongo
database.  Documents are modelled as insertion-ordered association lists of
BSON-like values (`Doc`), mirroring Python `dict` semantics (unique keys,
in-place overwrite, append of fresh keys).  The external scientific library
(pymatgen), the filesystem and the wall clock are abstracted into an `Env`
record of oracle functions; everything the module itself computes is
translated directly from the source.  Python floats are modelled as integers:
no property proved here depends on fractional precision; the one true
division in the source (`percent_delta_vol`) is modelled with an explicit
zero test for `ZeroDivisionError`, and the single comparison against the
literal `0.20` is written with denominators cleared.  A raised exception is
modelled as `Option.none` of the surrounding computation.
-/

namespace Creator

/-- BSON-ish values stored in task documents. -/
inductive BVal where
  | str : String → BVal
  | num : Int → BVal
  | bool : Bool → BVal
  | null : BVal
  | doc : List (String × BVal) → BVal
  | arr : List BVal → BVal
  deriving Repr, Inhabited

namespace BVal

mutual
def beq : BVal → BVal → Bool
  | .str a, .str b => a == b
  | .num a, .num b => a == b
  | .bool a, .bool b => a == b
  | .null, .null => true
  | .doc a, .doc b => beqFields a b
  | .arr a, .arr b => beqArr a b
  | _, _ => false

def beqFields : List (String × BVal) → List (String × BVal) → Bool
  | [], [] => true
  | (k, v) :: rest, (k', v') :: rest' =>
      k == k' && beq v v' && beqFields rest rest'
  | _, _ => false

def beqArr : List BVal → List BVal → Bool
  | [], [] => true
  | v :: rest, v' :: rest' => beq v v' && beqArr rest rest'
  | _, _ => false
end

mutual
theorem eq_of_beq : ∀ {a b : BVal}, beq a b = true → a = b
  | .str _, .str _, h => by
      simp only [beq, beq_iff_eq] at h; exact congrArg BVal.str h
  | .num _, .num _, h => by
      simp only [beq, beq_iff_eq] at h; exact congrArg BVal.num h
  | .bool _, .bool _, h => by
      simp only [beq, beq_iff_eq] at h; exact congrArg BVal.bool h
  | .null, .null, _ => rfl
  | .doc a, .doc b, h => by
      simp only [beq] at h; exact congrArg BVal.doc (eqFields_of_beqFields h)
  | .arr a, .arr b, h => by
      simp only [beq] at h; exact congrArg BVal.arr (eqArr_of_beqArr h)

theorem eqFields_of_beqFields :
    ∀ {a b : List (String × BVal)}, beqFields a b = true → a = b
  | [], [], _ => rfl
  | (k, v) :: rest, (k', v') :: rest', h => by
      simp only [beqFields, Bool.and_eq_true, beq_iff_eq] at h
      obtain ⟨⟨hk, hv⟩, hr⟩ := h
      rw [hk, eq_of_beq hv, eqFields_of_beqFields hr]

theorem eqArr_of_beqArr : ∀ {a b : List BVal}, beqArr a b = true → a = b
  | [], [], _ => rfl
  | v :: rest, v' :: rest', h => by
      simp only [beqArr, Bool.and_eq_true] at h
      obtain ⟨hv, hr⟩ := h
      rw [eq_of_beq hv, eqArr_of_beqArr hr]
end

mutual
theorem beq_refl : ∀ a : BVal, beq a a = true
  | .str _ => by simp [beq]
  | .num _ => by simp [beq]
  | .bool _ => by simp [beq]
  | .null => rfl
  | .doc d => by simp only [beq]; exact beqFields_refl d
  | .arr l => by simp only [beq]; exact beqArr_refl l

theorem beqFields_refl : ∀ a : List (String × BVal), beqFields a a = true
  | [] => rfl
  | (k, v) :: rest => by
      simp [beqFields, beq_refl v, beqFields_refl rest]

theorem beqArr_refl : ∀ a : List BVal, beqArr a a = true
  | [] => rfl
  | v :: rest => by simp [beqArr, beq_refl v, beqArr_refl rest]
end

instance : DecidableEq BVal := fun a b =>
  decidable_of_iff (beq a b = true) ⟨eq_of_beq, fun h => h ▸ beq_refl a⟩

end BVal

/-- A document / Python dict: an insertion-ordered association list with
unique keys (the representation invariant of a Python `dict`). -/
abbrev Doc := List (String × BVal)

/-- `d[k]` read access (first binding of `k`). -/
def aget? {α : Type} (d : List (String × α)) (k : String) : Option α :=
  (d.find? (fun p => p.1 == k)).map (·.2)

/-- `d[k] = v`: overwrite in place when the key is present (keeping its
position, as a Python dict does), append otherwise. -/
def aset {α : Type} : List (String × α) → String → α → List (String × α)
  | [], k, v => [(k, v)]
  | (k', v') :: rest, k, v =>
      if k' == k then (k, v) :: rest else (k', v') :: aset rest k v

/-- `d.pop(k, None)` / `del d[k]`: drop the first binding of `k` (the only
one, under the dict invariant). -/
def adel {α : Type} : List (String × α) → String → List (String × α)
  | [], _ => []
  | (k', v') :: rest, k =>
      if k' == k then rest else (k', v') :: adel rest k

/-- `k in d`. -/
def hasKey (d : Doc) (k : String) : Bool := (aget? d k).isSome

/-- `d.get(k, dflt)`. -/
def getDZ (d : Doc) (k : String) (dflt : BVal) : BVal := (aget? d k).getD dflt

/-- Python truthiness of a value. -/
def bTruthy : BVal → Bool
  | .str s => !(s == "")
  | .num n => !(n == 0)
  | .bool b => b
  | .null => false
  | .doc d => !d.isEmpty
  | .arr l => !l.isEmpty

def asNum : BVal → Option Int
  | .num n => some n
  | _ => none

def asStr : BVal → Option String
  | .str s => some s
  | _ => none

def asArr : BVal → Option (List BVal)
  | .arr l => some l
  | _ => none

def asDocV : BVal → Option Doc
  | .doc d => some d
  | _ => none

/-- `v[k]` on a value that must be a dict (raises otherwise). -/
def bget? (v : BVal) (k : String) : Option BVal := (asDocV v).bind (aget? · k)

/-- Chained item access `d[k₁][k₂]…` starting from a document. -/
def dpath? (d : Doc) : List String → Option BVal
  | [] => some (.doc d)
  | k :: rest => (aget? d k).bind (fun v => bpath? v rest)
where
  bpath? : BVal → List String → Option BVal
  | v, [] => some v
  | v, k :: rest => (bget? v k).bind (fun w => bpath? w rest)

section AssocLemmas

variable {α : Type}

@[simp] theorem aget?_nil {k : String} : aget? ([] : List (String × α)) k = none := rfl

theorem aget?_cons {k k' : String} {v : α} {rest : List (String × α)} :
    aget? ((k', v) :: rest) k = if k' = k then some v else aget? rest k := by
  by_cases h : k' = k
  · subst h; simp [aget?, List.find?]
  · have hb : (k' == k) = false := by simp [h]
    simp [aget?, List.find?, hb, h]

@[simp] theorem aget?_aset_self {d : List (String × α)} {k : String} {v : α} :
    aget? (aset d k v) k = some v := by
  induction d with
  | nil => simp [aset, aget?_cons]
  | cons p rest ih =>
      obtain ⟨k', v'⟩ := p
      simp only [aset]
      by_cases h : k' = k
      · simp [h, aget?_cons]
      · simp [h, aget?_cons, ih]

theorem aget?_aset_ne {d : List (String × α)} {k k' : String} {v : α}
    (h : k' ≠ k) : aget? (aset d k' v) k = aget? d k := by
  induction d with
  | nil => simp [aset, aget?_cons, h]
  | cons p rest ih =>
      obtain ⟨k'', v''⟩ := p
      simp only [aset]
      by_cases h2 : k'' = k'
      · subst h2; simp [aget?_cons, h]
      · simp only [beq_iff_eq, h2, if_false, aget?_cons]
        by_cases h3 : k'' = k <;> simp [h3, ih]

theorem aget?_adel_ne {d : List (String × α)} {k k' : String}
    (h : k' ≠ k) : aget? (adel d k') k = aget? d k := by
  induction d with
  | nil => simp [adel]
  | cons p rest ih =>
      obtain ⟨k'', v''⟩ := p
      simp only [adel]
      by_cases h2 : k'' = k'
      · subst h2; simp [aget?_cons, h]
      · simp only [beq_iff_eq, h2, if_false, aget?_cons]
        by_cases h3 : k'' = k <;> simp [h3, ih]

end AssocLemmas

/-! ## String helpers (byte-wise, as Python 2 `str` operations) -/

/-- `os.sep` on the target platform. -/
def osSep : String := "/"

/-- `os.path.join a b` for a relative second component. -/
def joinPath (a b : String) : String := a ++ osSep ++ b

def strStartsWith (s pre : String) : Bool := pre.toList.isPrefixOf s.toList

def strEndsWith (s post : String) : Bool := post.toList.isSuffixOf s.toList

/-- `re.search(pat, s)` for a literal pattern: substring containment. -/
def containsSub (s pat : String) : Bool :=
  s.toList.tails.any (fun t => pat.toList.isPrefixOf t)

/-- Byte-wise `≤` on strings (Python 2 string comparison). -/
def strLe (a b : String) : Bool := go a.toList b.toList
where
  go : List Char → List Char → Bool
  | [], _ => true
  | _ :: _, [] => false
  | c :: cs, c' :: cs' =>
      if c.val < c'.val then true
      else if c'.val < c.val then false
      else go cs cs'

/-- Stable insertion sort implementing Python `sorted` on strings. -/
def sortStrs (l : List String) : List String := l.foldr insertS []
where
  insertS (s : String) : List String → List String
  | [] => [s]
  | t :: rest => if strLe s t then s :: t :: rest else t :: insertS s rest

/-- Python `sorted` on (modelled) numbers. -/
def sortInts (l : List Int) : List Int := l.foldr insertI []
where
  insertI (n : Int) : List Int → List Int
  | [] => [n]
  | m :: rest => if n ≤ m then n :: m :: rest else m :: insertI n rest

/-! ## The vasprun filename pattern

`vasprun_pattern = re.compile("^vasprun.xml([\w\.]*)")`, used with `.match`:
anchored at the start, `vasprun`, then any single character (the unescaped
`.`), then `xml`, then a (possibly empty) greedy run of word or dot
characters as group 1. -/

/-- Whether `vasprun_pattern.match f` succeeds. -/
def vasprunMatch (f : String) : Bool :=
  match f.toList with
  | 'v' :: 'a' :: 's' :: 'p' :: 'r' :: 'u' :: 'n' :: c :: 'x' :: 'm' :: 'l' :: _ =>
      c != '\n'
  | _ => false

/-- A word (`[a-zA-Z0-9_]`, as Python 2 bytes `\w`) or dot character. -/
def isWordDot (c : Char) : Bool :=
  ('a' ≤ c && c ≤ 'z') || ('A' ≤ c && c ≤ 'Z') || c.isDigit || c == '_' || c == '.'

/-- `m.group(1)` of a successful `vasprun_pattern.match`: the maximal run of
word/dot characters after the 11-character prefix. -/
def vasprunGroup1 (f : String) : String :=
  String.mk ((f.toList.drop 11).takeWhile isWordDot)

/-! ## The environment

Everything owned by the external scientific library (pymatgen parsers,
symmetry/bonding analysis), the filesystem and the clock, abstracted as
oracles.  An oracle returning `none` models the corresponding library call
raising an exception. -/

/-- Result of `SymmetryFinder` queries on a structure. -/
structure SgInfo where
  symbol : String
  number : Int
  pointGroup : String
  crystalSystem : String
  hall : String

/-- Data extracted from a parsed POSCAR (`Poscar.from_file(...).structure`). -/
structure PoscarInfo where
  unitCellFormula : BVal
  reducedCellFormula : BVal
  elements : List String
  prettyFormula : String
  anonymousFormula : BVal
  nsites : Int
  structDict : BVal

structure Env where
  /-- `os.listdir`. -/
  listdir : String → List String
  /-- `os.path.isdir`. -/
  isDir : String → Bool
  /-- `os.path.exists`. -/
  pathExists : String → Bool
  /-- `os.path.abspath`. -/
  abspath : String → String
  /-- resolved host name used by `get_uri`. -/
  hostname : String
  /-- `datetime.datetime.today()`. -/
  today : BVal
  /-- `Vasprun(file).to_dict`; `none` = parse exception. -/
  vasprunToDict : String → Option Doc
  /-- `str(datetime.datetime.fromtimestamp(os.path.getmtime(file)))`. -/
  mtimeStr : String → String
  /-- `str(CifWriter(r.final_structure))` for the run parsed from `file`. -/
  cifStr : String → String
  /-- `r.final_structure.density` for the run parsed from `file`. -/
  densityOf : String → Int
  /-- `r.complete_dos.to_dict`; `none` = exception (caught and skipped). -/
  dosOf : String → Option BVal
  /-- `SymmetryFinder(Structure.from_dict(crystal), 0.1)` queries;
  `none` = exception. -/
  sgOf : BVal → Option SgInfo
  /-- `VoronoiCoordFinder` coordination list for a crystal dict (per-site
  errors are already swallowed inside the source loop); `none` =
  `Structure.from_dict` exception. -/
  coordNumsOf : BVal → Option BVal
  /-- `Structure.from_dict(crystal).to_dict`; `none` = exception. -/
  structRoundtrip : BVal → Option BVal
  /-- oxidation-state decorated `bv_struct.to_dict` from `BVAnalyzer`;
  `none` = exception (caught, falling back to the undecorated structure). -/
  oxiDecorated : BVal → Option BVal
  /-- `Incar.from_file` as a mapping; `none` = exception. -/
  incarOf : String → Option Doc
  /-- `Kpoints.from_file(...).to_dict`; `none` = exception. -/
  kpointsOf : String → Option BVal
  /-- parsed POSCAR data; `none` = exception. -/
  poscarOf : String → Option PoscarInfo
  /-- `Potcar.from_file(...).symbols`; `none` = exception. -/
  potcarSymbolsOf : String → Option BVal
  /-- `Oszicar(...).to_dict`; `none` = exception. -/
  oszicarOf : String → Option BVal
  /-- `json.load(zopen(file))`; `none` = exception (uncaught). -/
  loadJson : String → Option BVal
  /-- `Outcar(file)` as `(to_dict, run_stats)`; `none` = exception
  (uncaught). -/
  outcarOf : String → Option (BVal × Doc)

/-- Drone configuration (the `__init__` fields that matter semantically;
`additional_fields` is already normalised to `{}` by the constructor). -/
structure DroneCfg where
  simulate : Bool
  parseDos : Bool
  updateDuplicates : Bool
  additionalFields : Doc

/-- `get_uri(mydir) = hostname + ":" + abspath(mydir)`. -/
def get_uri (env : Env) (mydir : String) : String :=
  env.hostname ++ ":" ++ env.abspath mydir

/-- `contains_vasp_input(dirname)`: all four VASP input files present,
directly or with a `.orig` suffix. -/
def contains_vasp_input (env : Env) (dirname : String) : Bool :=
  ["INCAR", "POSCAR", "POTCAR", "KPOINTS"].all (fun f =>
    env.pathExists (joinPath dirname f) ||
    env.pathExists (joinPath dirname (f ++ ".orig")))

/-! ## `process_vasprun` -/

/-- `VaspToDbTaskDrone.process_vasprun(dirname, taskname, filename,
parse_dos)`. -/
def process_vasprun (env : Env) (dirname taskname filename : String)
    (parseDos : Bool) : Option Doc := do
  let vasprunFile := joinPath dirname filename
  let d ← env.vasprunToDict vasprunFile
  let d := aset d "dir_name" (.str (env.abspath dirname))
  let d := aset d "completed_at" (.str (env.mtimeStr vasprunFile))
  let d := aset d "cif" (.str (env.cifStr vasprunFile))
  let d := aset d "density" (.num (env.densityOf vasprunFile))
  let d := if parseDos then
      match env.dosOf vasprunFile with
      | some dos => aset d "dos" dos
      | none => d
    else d
  let d := if taskname == "relax1" || taskname == "relax2" then
      aset d "task" (.doc [("type", .str "aflow"), ("name", .str taskname)])
    else
      aset d "task" (.doc [("type", .str "standard"), ("name", .str "standard")])
  return d

/-! ## Analysis helpers -/

/-- `get_coordination_numbers(d)` (the Voronoi loop itself is delegated to
the external library oracle). -/
def get_coordination_numbers (env : Env) (d : Doc) : Option BVal := do
  let crystal ← dpath? d ["output", "crystal"]
  env.coordNumsOf crystal

/-- `abs(percent_delta_vol) > 0.20`, i.e. |ΔV/V₀| > 1/5, with denominators
cleared (exact real comparison on the modelled volumes). -/
def volumeWarnings (deltaVol initialVol : Int) : List BVal :=
  if 5 * deltaVol.natAbs > initialVol.natAbs then [.str "Volume change > 20%"]
  else []

/-- The dict literal returned by `get_basic_analysis_and_error_checks`
(source lines 538–543). -/
def analysisResult (deltaVol percentDeltaVol : Int) (warningMsgs : List BVal)
    (coordNum gap cbm vbm isDirect bvStructDict : BVal) : Doc :=
  [("delta_volume", .num deltaVol),
   ("percent_delta_volume", .num percentDeltaVol),
   ("warnings", .arr warningMsgs),
   ("coordination_numbers", coordNum),
   ("bandgap", gap), ("cbm", cbm), ("vbm", vbm),
   ("is_gap_direct", isDirect),
   ("bv_structure", bvStructDict)]

/-- `get_basic_analysis_and_error_checks(d)`.  `none` models an uncaught
exception escaping to the caller (`generate_doc`'s `try`). -/
def get_basic_analysis_and_error_checks (env : Env) (d : Doc) : Option Doc := do
  let initialVol ← dpath? d ["input", "crystal", "lattice", "volume"] >>= asNum
  let finalVol ← dpath? d ["output", "crystal", "lattice", "volume"] >>= asNum
  let deltaVol := finalVol - initialVol
  -- float division: `ZeroDivisionError` when the initial volume is zero;
  -- the quotient itself is modelled at integer precision
  if initialVol = 0 then none else do
  let percentDeltaVol := deltaVol / initialVol
  let coordNum ← get_coordination_numbers env d
  let calcs ← aget? d "calculations" >>= asArr
  let lastCalc ← calcs.getLast?
  let gap ← bget? lastCalc "output" >>= (bget? · "bandgap")
  let cbm ← bget? lastCalc "output" >>= (bget? · "cbm")
  let vbm ← bget? lastCalc "output" >>= (bget? · "vbm")
  let isDirect ← bget? lastCalc "output" >>= (bget? · "is_gap_direct")
  let warningMsgs := volumeWarnings deltaVol initialVol
  let crystal ← dpath? d ["output", "crystal"]
  let bvBase ← env.structRoundtrip crystal
  let bvStructDict := (env.oxiDecorated crystal).getD bvBase
  return analysisResult deltaVol percentDeltaVol warningMsgs coordNum
    gap cbm vbm isDirect bvStructDict

/-! ## `generate_doc` -/

/-- The root-level keys copied from the last calculation (source lines
446–449). -/
def rootKeys : List String :=
  ["completed_at", "nsites", "unit_cell_formula", "reduced_cell_formula",
   "pretty_formula", "elements", "nelements", "cif", "density",
   "is_hubbard", "hubbards", "run_type"]

/-- `string.ascii_uppercase`, indexed for the anonymous formula. -/
def asciiUppercase : List String :=
  ["A", "B", "C", "D", "E", "F", "G", "H", "I", "J", "K", "L", "M",
   "N", "O", "P", "Q", "R", "S", "T", "U", "V", "W", "X", "Y", "Z"]

/-- The `d['input']` section, `{'crystal': d1['input']['crystal']}`. -/
def inputSection (inCrystal : BVal) : BVal := .doc [("crystal", inCrystal)]

/-- The `d['output']` section (source lines 456–459). -/
def outputSection (outCrystal fe fepa : BVal) : BVal :=
  .doc [("crystal", outCrystal), ("final_energy", fe),
        ("final_energy_per_atom", fepa)]

/-- The `pseudo_potential` dict (shared shape with the killed-run POTCAR
branch). -/
def pseudoPotentialSection (labels : BVal) : BVal :=
  .doc [("functional", .str "pbe"), ("pot_type", .str "paw"),
        ("labels", labels)]

/-- The `spacegroup` dict built from `SymmetryFinder` queries (source lines
474–480). -/
def spacegroupSection (sg : SgInfo) : BVal :=
  .doc [("symbol", .str sg.symbol), ("number", .num sg.number),
        ("point_group", .str sg.pointGroup), ("source", .str "spglib"),
        ("crystal_system", .str sg.crystalSystem), ("hall", .str sg.hall)]

/-- The `state` string of a run that is not classified as stopped. -/
def stateOfCompletion (hvc : BVal) : BVal :=
  .str (if bTruthy hvc then "successful" else "unsuccessful")

/-- `generate_doc`, lines 432–445: additional-field copy, `dir_name`,
`schema_version` and the `calculations` list. -/
def genDocCalcs (env : Env) (dirname : String)
    (vasprunFiles : List (String × String)) (parseDos : Bool)
    (additionalFields : Option Doc) : Option (Doc × List Doc) := do
  let fullpath := env.abspath dirname
  -- defensive copy of the additional fields ({} when falsy)
  let d : Doc := match additionalFields with
    | some af => if af.isEmpty then [] else af
    | none => []
  let d := aset d "dir_name" (.str fullpath)
  let d := aset d "schema_version" (.str "2.0.0")
  let calcs ← vasprunFiles.mapM (fun tf =>
    process_vasprun env dirname tf.1 tf.2 parseDos)
  let d := aset d "calculations" (.arr (calcs.map BVal.doc))
  return (d, calcs)

/-- `generate_doc`, lines 446–452: root-key copy from the last calculation,
`chemsys`, and `input.crystal` from the first calculation. -/
def genDocRoot (d : Doc) (d1 d2 : Doc) : Option Doc := do
  let d ← rootKeys.foldlM (fun d k => (aget? d2 k).map (fun v => aset d k v)) d
  let els ← aget? d2 "elements" >>= asArr
  let elNames ← els.mapM asStr
  let d := aset d "chemsys" (.str (String.intercalate "-" (sortStrs elNames)))
  let inCrystal ← dpath? d1 ["input", "crystal"]
  return aset d "input" (inputSection inCrystal)

/-- `generate_doc`, lines 453–455: the anonymous formula from the sorted
reduced-formula amounts. -/
def genDocAnon (d : Doc) (d2 : Doc) : Option Doc := do
  let rcf ← aget? d2 "reduced_cell_formula" >>= asDocV
  let vals ← (rcf.map Prod.snd).mapM asNum
  let vals := sortInts vals
  let anon ← (List.range vals.length).mapM (fun i => do
    let letter ← asciiUppercase.get? i   -- IndexError past 'Z'
    let v ← vals.get? i
    pure (letter, BVal.num v))
  return aset d "anonymous_formula" (.doc anon)

/-- `generate_doc`, lines 456–462: the `output`, `name` and
`pseudo_potential` entries. -/
def genDocOutput (d : Doc) (d2 : Doc) : Option Doc := do
  let outCrystal ← dpath? d2 ["output", "crystal"]
  let fe ← dpath? d2 ["output", "final_energy"]
  let fepa ← dpath? d2 ["output", "final_energy_per_atom"]
  let d := aset d "output" (outputSection outCrystal fe fepa)
  let d := aset d "name" (.str "aflow")
  let potcar ← dpath? d2 ["input", "potcar"]
  return aset d "pseudo_potential" (pseudoPotentialSection potcar)

/-- `len(d['calculations']) == 2 or vasprun_files.keys()[0] != "relax1"`,
with the short-circuit `or` and the `IndexError` of `keys()[0]` on an empty
dict. -/
def genDocStateCond (nCalcs : Nat)
    (vasprunFiles : List (String × String)) : Option Bool :=
  if nCalcs == 2 then some true
  else match vasprunFiles.head? with
    | some kv => some (kv.1 != "relax1")
    | none => none

/-- `generate_doc`, lines 464–469: the `state` classification. -/
def genDocState (d : Doc) (d2 : Doc) (nCalcs : Nat)
    (vasprunFiles : List (String × String)) : Option Doc :=
  match genDocStateCond nCalcs vasprunFiles with
  | none => none
  | some true =>
      (aget? d2 "has_vasp_completed").map (fun hvc =>
        aset d "state" (stateOfCompletion hvc))
  | some false => some (aset d "state" (.str "stopped"))

/-- `generate_doc`, lines 470–481: analysis, space group and the
`last_updated` stamp. -/
def genDocFinal (env : Env) (d : Doc) : Option Doc := do
  let ana ← get_basic_analysis_and_error_checks env d
  let d := aset d "analysis" (.doc ana)
  let sgCrystal ← dpath? d ["output", "crystal"]
  let sg ← env.sgOf sgCrystal
  let d := aset d "spacegroup" (spacegroupSection sg)
  return aset d "last_updated" env.today

/-- `VaspToDbTaskDrone.generate_doc(dirname, vasprun_files, parse_dos,
additional_fields)`, as the composition of its stages.  The surrounding
`try/except ... return None` is the `Option`: `none` is the `None`
return. -/
def generate_doc (env : Env) (dirname : String)
    (vasprunFiles : List (String × String)) (parseDos : Bool)
    (additionalFields : Option Doc) : Option Doc := do
  let dc ← genDocCalcs env dirname vasprunFiles parseDos additionalFields
  let d1 ← dc.2.head?      -- d['calculations'][0]
  let d2 ← dc.2.getLast?   -- d['calculations'][-1]
  let d ← genDocRoot dc.1 d1 d2
  let d ← genDocAnon d d2
  let d ← genDocOutput d d2
  let d ← genDocState d d2 dc.2.length vasprunFiles
  genDocFinal env d

/-! ## `process_killed_run` -/

/-- Sum of a (modelled) numeric list, `sum(xs)`; `none` = `TypeError`. -/
def sumNums : BVal → Option Int
  | .arr l => (l.mapM asNum).map (fun ns => ns.foldl (· + ·) 0)
  | _ => none

/-- The trailing `run_type` assignment of the INCAR branch (source lines
338–343); reads the `is_hubbard` entry just stored in `d`. -/
def setRunType (inc : Doc) (d : Doc) : Doc :=
  if bTruthy (getDZ d "is_hubbard" .null) then aset d "run_type" (.str "GGA+U")
  else if bTruthy (getDZ inc "LHFCALC" (.bool false)) then
    aset d "run_type" (.str "HF")
  else aset d "run_type" (.str "GGA")

/-- The `INCAR.*` branch of `process_killed_run` (source lines 325–347).
All exceptions inside are caught by the branch's `except`, so a failure
leaves whatever had been mutated so far. -/
def killedIncar (env : Env) (filename : String) (d : Doc) : Doc :=
  match env.incarOf filename with
  | none => d
  | some inc =>
    let d := aset d "incar" (.doc inc)
    let ldau := getDZ inc "LDAU" (.bool false)
    let d := aset d "is_hubbard" ldau
    if bTruthy ldau then
      let us := getDZ inc "LDAUU" (.arr [])
      let js := getDZ inc "LDAUJ" (.arr [])
      match sumNums us, sumNums js with
      | some su, some sj =>
        let d := if su = 0 ∧ sj = 0 then
            aset (aset d "is_hubbard" (.bool false)) "hubbards" (.doc [])
          else d
        setRunType inc d
      | _, _ => d   -- `sum` raised; caught with `d` partially updated
    else
      let d := aset d "hubbards" (.doc [])
      setRunType inc d

/-- `d['oszicar'][k] = v`: write into the nested `oszicar` dict.  A missing
or non-dict entry would raise, which the surrounding `except` catches with
`d` unchanged. -/
def oszicarSet (d : Doc) (k : String) (v : BVal) : Doc :=
  match aget? d "oszicar" with
  | some (.doc oz) => aset d "oszicar" (.doc (aset oz k v))
  | _ => d

/-- `re.match('relax\d', f)`. -/
def relaxDigitMatch (f : String) : Bool :=
  match f.toList with
  | 'r' :: 'e' :: 'l' :: 'a' :: 'x' :: c :: _ => c.isDigit
  | _ => false

/-- One iteration of the `process_killed_run` file loop (the
`if/elif` chain over `re.match` prefixes, source lines 323–395). -/
def killedFileStep (env : Env) (dirname : String) (d : Doc) (f : String) :
    Doc :=
  -- `filename = os.path.join(dirname, f)`
  if strStartsWith f "INCAR" then killedIncar env (joinPath dirname f) d
  else if strStartsWith f "KPOINTS" then
    match env.kpointsOf (joinPath dirname f) with
    | some kp => aset d "kpoints" kp
    | none => d
  else if strStartsWith f "POSCAR" then
    match env.poscarOf (joinPath dirname f) with
    | some p =>
        let d := aset d "unit_cell_formula" p.unitCellFormula
        let d := aset d "reduced_cell_formula" p.reducedCellFormula
        let d := aset d "elements" (.arr (p.elements.map .str))
        let d := aset d "nelements" (.num p.elements.length)
        let d := aset d "pretty_formula" (.str p.prettyFormula)
        let d := aset d "anonymous_formula" p.anonymousFormula
        let d := aset d "nsites" (.num p.nsites)
        let d := aset d "chemsys"
            (.str (String.intercalate "-" (sortStrs p.elements)))
        aset d "poscar" p.structDict
    | none => d
  else if strStartsWith f "POTCAR" then
    match env.potcarSymbolsOf (joinPath dirname f) with
    | some syms => aset d "pseudo_potential" (pseudoPotentialSection syms)
    | none => d
  else if strStartsWith f "OSZICAR" then
    match env.oszicarOf (joinPath dirname f) with
    | some oz => oszicarSet d "root" oz
    | none => d
  else if relaxDigitMatch f then
    if env.pathExists (joinPath (joinPath dirname f) "OSZICAR") then
      match env.oszicarOf (joinPath (joinPath dirname f) "OSZICAR") with
      | some oz => oszicarSet d f oz
      | none => d
    else d
  else d

/-- `VaspToDbTaskDrone.process_killed_run(dirname)`. -/
def process_killed_run (env : Env) (dirname : String) : Doc :=
  let fullpath := env.abspath dirname
  let d : Doc := [("dir_name", .str fullpath), ("state", .str "killed"),
                  ("oszicar", .doc [])]
  (env.listdir dirname).foldl (killedFileStep env dirname) d

/-! ## `post_process` -/

/-- `glob.glob(os.path.join(dir, pre + "*"))`: the files of `dir` whose name
starts with `pre`, as joined paths. -/
def globStar (env : Env) (dir : String) (pre : String) : List String :=
  ((env.listdir dir).filter (fun f => strStartsWith f pre)).map (joinPath dir)

/-- `int(m.group(1))` of `re.match("(\d+)-ICSD", s)`, when the pattern
matches; `none` when `re.match` returns `None` (then nothing is stored). -/
def icsdIdFromSource (s : String) : Option Int :=
  let digits := s.toList.takeWhile Char.isDigit
  if digits.isEmpty then none
  else if strStartsWith (String.mk (s.toList.drop digits.length)) "-ICSD" then
    some (digits.foldl (fun n c => 10 * n + (c.toNat - 48 : Int)) 0)
  else none

/-- The transformations-file block of `post_process` (source lines 255–269).
Only `ValueError` is caught inside; a malformed transformations document
(`history` missing, not a list, empty, `source` missing or not a string)
raises out of `post_process`.  Returns the parsed transformations dict and
the updated `d`. -/
def ppTransformations (env : Env) (fullpath : String) (d : Doc) :
    Option (Doc × Doc) := do
  match (globStar env fullpath "transformations.json").head? with
  | some fn => do
      let t ← env.loadJson fn
      let tf ← asDocV t
      let hist ← aget? tf "history"
      let h0 ← (asArr hist).bind List.head?
      let src ← bget? h0 "source"
      let s ← asStr src
      let d := match icsdIdFromSource s with
        | some n => aset d "icsd_id" (.num n)
        | none => d
      return (tf, d)
  | none => return ([], d)

/-- The `other_parameters` block of `post_process` (source lines 271–282):
`tags` and `author` are popped out of the nested dict, the author is copied
into `d`, and an emptied `other_parameters` is dropped.  Returns the updated
transformations, the updated `d` and `new_tags`. -/
def ppOtherParams (transformations : Doc) (d : Doc) :
    Option (Doc × Doc × Option BVal) := do
  match aget? transformations "other_parameters" with
  | some op =>
      if bTruthy op then do
        let opd ← asDocV op   -- `.pop` on a non-dict raises
        let newTags := aget? opd "tags"
        let opd := adel opd "tags"
        let newAuthor := aget? opd "author"
        let opd := adel opd "author"
        let d := match newAuthor with
          | some a => if bTruthy a then aset d "author" a else d
          | none => d
        let transformations :=
          if opd.isEmpty then adel transformations "other_parameters"
          else aset transformations "other_parameters" (.doc opd)
        return (transformations, d, newTags)
      else return (transformations, d, none)
  | none => return (transformations, d, none)

/-- `d["calculations"][i]["output"]["outcar"] = oc` (source line 292);
`none` = `KeyError`/`IndexError` (uncaught — in particular every killed-run
document lacking `calculations` raises here when an OUTCAR file exists). -/
def setCalcOutcar (d : Doc) (i : Nat) (oc : BVal) : Option Doc := do
  let calcs ← aget? d "calculations" >>= asArr
  let c ← calcs.get? i
  let cd ← asDocV c
  let out ← bget? c "output" >>= asDocV
  let cd := aset cd "output" (.doc (aset out "outcar" oc))
  return aset d "calculations" (.arr (calcs.set i (.doc cd)))

/-- One iteration of the OUTCAR loop (source lines 288–293). -/
def ppOutcarStep (env : Env) (acc : Doc × Doc) (filename : String) :
    Option (Doc × Doc) := do
  let oc ← env.outcarOf filename
  let i := if containsSub filename "relax2" then 1 else 0
  let taskname := if containsSub filename "relax2" then "relax2" else "relax1"
  let d ← setCalcOutcar acc.1 i oc.1
  return (d, aset acc.2 taskname (.doc oc.2))

def runStatKeys : List String :=
  ["Total CPU time used (sec)", "User time (sec)", "System time (sec)",
   "Elapsed time (sec)"]

/-- The overall run-stats summation (source lines 295–303); `none` models
the bare `except` path (the `overall` entry is simply not added). -/
def overallStats (runStats : Doc) : Option Doc :=
  runStatKeys.foldlM (fun acc key => do
    let vals ← (runStats.map Prod.snd).mapM (fun v =>
      (asDocV v).bind (fun vd => aget? vd key) >>= asNum)
    pure (aset acc key (.num (vals.foldl (· + ·) 0)))) []

/-- `VaspToDbTaskDrone.post_process(mydir, d)`: `d` after the in-place
mutation; `none` = an uncaught exception propagating to the caller. -/
def post_process (env : Env) (mydir : String) (d : Doc) : Option Doc := do
  let fullpath := env.abspath mydir
  let td ← ppTransformations env fullpath d
  let tdn ← ppOtherParams td.1 td.2
  let d := aset tdn.2.1 "transformations" (.doc tdn.1)
  let dr ← (globStar env fullpath "OUTCAR").foldlM (ppOutcarStep env) (d, [])
  let runStats := match overallStats dr.2 with
    | some o => aset dr.2 "overall" (.doc o)
    | none => dr.2
  let d := aset dr.1 "run_stats" (.doc runStats)
  let d := aset d "dir_name" (.str (get_uri env mydir))
  return match tdn.2.2 with
    | some t => if bTruthy t then aset d "tags" t else d   -- `if new_tags:`
    | none => d

/-! ## `get_task_doc`: directory-layout classification -/

/-- The inner collection loop of the aflow branch: for each file of the
subtask directory matching the vasprun pattern, store
`vasprun_files[subtask] = os.path.join(subtask, f)`. -/
def collectSubtask (env : Env) (path : String)
    (acc : List (String × String)) (subtask : String) :
    List (String × String) :=
  (env.listdir (joinPath path subtask)).foldl
    (fun acc f =>
      if vasprunMatch f then aset acc subtask (joinPath subtask f) else acc)
    acc

/-- The `fileext` classification of the else branch (source lines 162–168). -/
def fileext (f : String) : String :=
  let g1 := vasprunGroup1 f
  if strStartsWith g1 ".relax2" then "relax2"
  else if strStartsWith g1 ".relax1" then "relax1"
  else "standard"

/-- The `vasprun_files` OrderedDict built by `get_task_doc` (source lines
138–169). -/
def getVasprunFiles (env : Env) (path : String) : List (String × String) :=
  -- `files = os.listdir(path)` is read once; `env.listdir` is pure, so the
  -- repeated occurrences below denote that one listing
  if (env.listdir path).contains "relax1"
      && (env.listdir path).contains "relax2"
      && env.isDir (joinPath path "relax1")
      && env.isDir (joinPath path "relax2") then
    -- Materials project style aflow runs
    ["relax1", "relax2"].foldl (collectSubtask env path) []
  else if (env.listdir path).contains "STOPCAR" then
    -- stopped runs
    ["relax1", "relax2"].foldl
      (fun acc subtask =>
        if (env.listdir path).contains subtask
            && env.isDir (joinPath path subtask) then
          collectSubtask env path acc subtask
        else acc) []
  else
    (env.listdir path).foldl
      (fun acc f => if vasprunMatch f then aset acc (fileext f) f else acc) []

/-- The sorted copy built (and never used) at source lines 171–174. -/
def sortAssocByKey (l : List (String × String)) : List (String × String) :=
  (sortStrs (l.map Prod.fst)).filterMap (fun k => (aget? l k).map (k, ·))

/-- Python dict truthiness of a generated doc (`if not d:`). -/
def docTruthy (d : Doc) : Bool := !d.isEmpty

/-- `VaspToDbTaskDrone.get_task_doc(path, parse_dos, additional_fields)`.
The outer `Option` is the exception channel (an uncaught exception inside,
e.g. from `post_process`); the inner `Option` is the returned `d`, which is
`None` when no branch fires. -/
def get_task_doc (env : Env) (path : String) (parseDos : Bool)
    (additionalFields : Option Doc) : Option (Option Doc) :=
  -- source lines 171–174 build `sorted_vasprun_files = sortAssocByKey
  -- vasprun_files` here; it is dead code (never passed on), so it has no
  -- counterpart in the result: `generate_doc` below receives the
  -- discovery-order `vasprun_files`
  if (getVasprunFiles env path).length > 0 then
    (post_process env path
      (match generate_doc env path (getVasprunFiles env path) parseDos
          additionalFields with
        | some dd => if docTruthy dd then dd else process_killed_run env path
        | none => process_killed_run env path)).map some
  else if !(strEndsWith path "relax1" || strEndsWith path "relax2")
      && contains_vasp_input env path then
    -- not Materials Project style: process as a killed run
    (post_process env path (process_killed_run env path)).map some
  else
    some none

/-! ## `get_valid_paths` and `convert` -/

/-- `VaspToDbTaskDrone.get_valid_paths((parent, subdirs, files))`.  Note the
third component of the walk triple is unused: the vasprun check is a `glob`
against the filesystem. -/
def get_valid_paths (env : Env)
    (path : String × List String × List String) : List String :=
  let (parent, subdirs, _files) := path
  if subdirs.contains "relax1" then [parent]
  else if !(strEndsWith parent (osSep ++ "relax1"))
      && !(strEndsWith parent (osSep ++ "relax2"))
      && (globStar env parent "vasprun.xml").length > 0 then
    [parent]
  else []

/-! ## The database and `_insert_doc`

The tasks collection is the list of its documents in insertion order;
`db.counter` holds at most the one document `{"_id": "taskid", "c": c}`,
modelled by `counter : Option Int`; the `dos_fs` gridfs is a list of stored
dos blobs whose index is the `ObjectId` returned by `fs.put`. -/

structure DbState where
  coll : List Doc
  counter : Option Int
  dosFs : List BVal
  deriving Repr

/-- `coll.find_one({'dir_name': dn}, fields=['dir_name', 'task_id'])`,
up to the projection: the first document of the collection whose
`dir_name` equals `dn`. -/
def findOneByDirName (coll : List Doc) (dn : BVal) : Option Doc :=
  coll.find? (fun r => decide (aget? r "dir_name" = some dn))

/-- Mongo `{'$set': d}` applied to one stored document. -/
def mongoSet (target : Doc) (d : Doc) : Doc :=
  d.foldl (fun t kv => aset t kv.1 kv.2) target

/-- `coll.update({'dir_name': dn}, {'$set': d})`: update the first matching
document. -/
def collUpdate (dn : BVal) (d : Doc) : List Doc → List Doc
  | [] => []
  | r :: rest =>
      if aget? r "dir_name" = some dn then mongoSet r d :: rest
      else r :: collUpdate dn d rest

/-- One calculation of the DOS/gridfs loop (source lines 209–216): when the
calculation dict has a `dos` entry, the blob goes to gridfs, its id is stored
as `dos_fs_id` and the `dos` entry is deleted.  `none` = `'dos' in calc` on a
non-dict raising `TypeError`. -/
def dosCalcStep (acc : List BVal × List BVal) (c : BVal) :
    Option (List BVal × List BVal) :=
  match c with
  | .doc cd =>
      if hasKey cd "dos" then
        match aget? cd "dos" with
        | some dos =>
            let cd := aset cd "dos_fs_id" (.num (acc.1.length : Int))
            let cd := adel cd "dos"
            some (acc.1 ++ [dos], acc.2 ++ [.doc cd])
        | none => some (acc.1, acc.2 ++ [.doc cd])
      else some (acc.1, acc.2 ++ [c])
  | _ => none

/-- `d['calculations']` as an iterable list; `none` = iterating a non-list
raises. -/
def dosCalcsOf (d : Doc) : Option (List BVal) :=
  match aget? d "calculations" with
  | some (.arr calcs) => some calcs
  | _ => none

/-- The `parse_dos` gridfs block of `_insert_doc` (source lines 208–218).
On an exception (`none`) the collection is untouched (the partial gridfs
mutation is irrelevant to every stated property and is not tracked). -/
def dosUpdate (st : DbState) (d : Doc) : Option (DbState × Doc) :=
  if hasKey d "calculations" then
    match dosCalcsOf d with
    | none => none
    | some calcs =>
        (calcs.foldlM dosCalcStep (st.dosFs, [])).map (fun fc =>
          ({ st with dosFs := fc.1 }, aset d "calculations" (.arr fc.2)))
  else some (st, d)

/-- What `_insert_doc` returns (when it does not raise). -/
inductive InsertRet where
  /-- `return d['task_id']` (fresh insert or duplicate update). -/
  | tid : BVal → InsertRet
  /-- simulate mode: `return d` (the whole document). -/
  | retDoc : Doc → InsertRet
  /-- the skipped-duplicate path falls off the end: Python returns `None`. -/
  | noneRet : InsertRet
  deriving Repr, DecidableEq

/-- `coll.insert(d, safe=True)` followed by `return d['task_id']`. -/
def pushAndReturnTid (st : DbState) (d : Doc) : DbState × Option InsertRet :=
  match aget? d "task_id" with
  | some v => ({ st with coll := st.coll ++ [d] }, some (.tid v))
  | none => ({ st with coll := st.coll ++ [d] }, none)

/-- `if db.counter.find({"_id": "taskid"}).count() == 0:
db.counter.insert({"_id": "taskid", "c": 1})` (source lines 223–224). -/
def ensureCounter (st : DbState) : DbState :=
  if st.counter.isNone then { st with counter := some 1 } else st

/-- The fresh-insert branch (source lines 221–231), after `last_updated` is
stamped: when the incoming `task_id` is absent or falsy, the counter doc is
created with `c = 1` if absent and `find_and_modify` draws from it (returning
the pre-increment value `c` and storing `c + 1`); then `coll.insert`. -/
def insertFresh (st : DbState) (d : Doc) : DbState × Option InsertRet :=
  if !(hasKey d "task_id") || !(bTruthy (getDZ d "task_id" .null)) then
    match (ensureCounter st).counter with
    | none =>   -- find_and_modify on a missing counter doc raises
        (ensureCounter st, none)
    | some c =>
        pushAndReturnTid
          ⟨(ensureCounter st).coll, some (c + 1), (ensureCounter st).dosFs⟩
          (aset d "task_id" (.num c))
  else pushAndReturnTid st d

/-- The duplicate-update branch (source lines 232–237): the stored task id
overwrites the incoming one, then `$set` on the first matching document,
and `d['task_id']` is returned. -/
def insertUpdateDup (st : DbState) (dn : BVal) (result : Doc) (d : Doc) :
    DbState × Option InsertRet :=
  match aget? result "task_id" with
  | none => (st, none)   -- result['task_id'] raises KeyError
  | some tid =>
      match aget? (aset d "task_id" tid) "task_id" with
      | some v =>
          ({ st with coll := collUpdate dn (aset d "task_id" tid) st.coll },
           some (.tid v))
      | none =>
          ({ st with coll := collUpdate dn (aset d "task_id" tid) st.coll },
           none)

/-- `VaspToDbTaskDrone._insert_doc(d)` in non-simulate mode, once
`d['dir_name']` has been read.  `result = coll.find_one(...)` is queried
once in the source; it is a pure function of the unchanged collection, so
the repeated occurrences below denote that one result. -/
def insertReal (cfg : DroneCfg) (env : Env) (st : DbState) (d : Doc)
    (dn : BVal) : DbState × Option InsertRet :=
  if (findOneByDirName st.coll dn).isNone || cfg.updateDuplicates then
    match (if cfg.parseDos then dosUpdate st d else some (st, d)) with
    | none => (st, none)
    | some (st1, d1) =>
        match findOneByDirName st.coll dn with
        | none => insertFresh st1 (aset d1 "last_updated" env.today)
        | some r => insertUpdateDup st1 dn r (aset d1 "last_updated" env.today)
  else
    (st, some .noneRet)   -- "Skipping duplicate"; returns None

/-- `VaspToDbTaskDrone._insert_doc(d)`.  The argument is `Option Doc`
because `get_task_doc` may hand over `None`; the second component is `none`
exactly when the body raises (`TypeError` on `None`, `KeyError` on a missing
key, …), which `assimilate` catches. -/
def _insert_doc (cfg : DroneCfg) (env : Env) (st : DbState)
    (d? : Option Doc) : DbState × Option InsertRet :=
  if !cfg.simulate then
    match d? with
    | none => (st, none)       -- d['dir_name'] on None raises
    | some d =>
        match aget? d "dir_name" with
        | none => (st, none)   -- KeyError
        | some dn => insertReal cfg env st d dn
  else
    match d? with
    | none => (st, none)       -- d['task_id'] = 0 on None raises
    | some d =>
        let d := aset d "task_id" (.num 0)
        (st, some (.retDoc d))

/-- What `assimilate` returns. -/
inductive AssimRes where
  /-- the value returned by `_insert_doc`. -/
  | ret : InsertRet → AssimRes
  /-- an exception was caught and logged: `return False`. -/
  | failed : AssimRes
  deriving Repr, DecidableEq

/-- `VaspToDbTaskDrone.assimilate(path)`: build the task doc, insert it and
return the result; any exception is caught and turned into `False`. -/
def assimilate (cfg : DroneCfg) (env : Env) (st : DbState) (path : String) :
    DbState × AssimRes :=
  match get_task_doc env path cfg.parseDos (some cfg.additionalFields) with
  | none => (st, .failed)
  | some d? =>
      match _insert_doc cfg env st d? with
      | (st', some r) => (st', .ret r)
      | (st', none) => (st', .failed)

/-!
# Theorems

One theorem per claim of the specification, preceded by shared helper
lemmas.
-/

/-- Keys of a document are pairwise distinct — the representation invariant
of every document that can come from a Python `dict`. -/
def wfDoc (d : Doc) : Prop := (d.map Prod.fst).Nodup

instance (d : Doc) : Decidable (wfDoc d) := by unfold wfDoc; infer_instance

theorem aget?_eq_none_iff {α : Type} {d : List (String × α)} {k : String} :
    aget? d k = none ↔ k ∉ d.map Prod.fst := by
  induction d with
  | nil => simp
  | cons p rest ih =>
      obtain ⟨k', v'⟩ := p
      rw [aget?_cons]
      by_cases h : k' = k
      · subst h; simp
      · simp only [h, if_false, List.map_cons, List.mem_cons, not_or, ih]
        exact ⟨fun hn => ⟨fun hk => h hk.symm, hn⟩, fun hp => hp.2⟩

theorem aset_keys {α : Type} {d : List (String × α)} {k : String} {v : α} :
    (aset d k v).map Prod.fst =
      if k ∈ d.map Prod.fst then d.map Prod.fst else d.map Prod.fst ++ [k] := by
  induction d with
  | nil => simp [aset]
  | cons p rest ih =>
      obtain ⟨k', v'⟩ := p
      simp only [aset]
      by_cases h : k' = k
      · simp [h]
      · have hne : k ≠ k' := fun hkk => h hkk.symm
        by_cases hm : k ∈ rest.map Prod.fst <;> simp [h, hne, hm, ih]

theorem wfDoc_aset {d : Doc} {k : String} {v : BVal} (h : wfDoc d) :
    wfDoc (aset d k v) := by
  unfold wfDoc at h ⊢
  rw [aset_keys]
  by_cases hm : k ∈ d.map Prod.fst
  · simpa [hm] using h
  · simp only [hm, if_false]
    exact List.Nodup.append h (List.nodup_singleton k)
      (by simpa [List.disjoint_singleton] using hm)

theorem aget?_mongoSet_not_mem {t : Doc} {d : Doc} {k : String}
    (h : k ∉ d.map Prod.fst) : aget? (mongoSet t d) k = aget? t k := by
  induction d generalizing t with
  | nil => rfl
  | cons p rest ih =>
      obtain ⟨k0, v0⟩ := p
      simp only [List.map_cons, List.mem_cons, not_or] at h
      show aget? (mongoSet (aset t k0 v0) rest) k = aget? t k
      rw [ih h.2, aget?_aset_ne (fun hk => h.1 hk.symm)]

theorem aget?_mongoSet_of_wf {t : Doc} {d : Doc} {k : String} {v : BVal}
    (hwf : wfDoc d) (h : aget? d k = some v) :
    aget? (mongoSet t d) k = some v := by
  induction d generalizing t with
  | nil => simp at h
  | cons p rest ih =>
      obtain ⟨k0, v0⟩ := p
      have hwf' : wfDoc rest := (List.nodup_cons.mp hwf).2
      have hk0 : k0 ∉ rest.map Prod.fst := (List.nodup_cons.mp hwf).1
      rw [aget?_cons] at h
      show aget? (mongoSet (aset t k0 v0) rest) k = some v
      by_cases hk : k0 = k
      · subst hk
        rw [if_pos rfl] at h
        injection h with h
        rw [aget?_mongoSet_not_mem hk0, aget?_aset_self, h]
      · rw [if_neg hk] at h
        exact ih hwf' h

theorem mongoSet_mem_collUpdate {coll : List Doc} {dn : BVal} {r : Doc}
    (d : Doc) (h : findOneByDirName coll dn = some r) :
    mongoSet r d ∈ collUpdate dn d coll := by
  induction coll with
  | nil => simp [findOneByDirName] at h
  | cons r0 rest ih =>
      by_cases h0 : aget? r0 "dir_name" = some dn
      · have : r0 = r := by
          simpa [findOneByDirName, List.find?, h0] using h
        subst this
        simp [collUpdate, h0]
      · have h' : findOneByDirName rest dn = some r := by
          simpa [findOneByDirName, List.find?, h0] using h
        simp only [collUpdate, if_neg h0]
        exact List.mem_cons_of_mem _ (ih h')

theorem dosUpdate_spec {st : DbState} {d : Doc} {st' : DbState} {d' : Doc}
    (h : dosUpdate st d = some (st', d')) :
    st'.coll = st.coll ∧ st'.counter = st.counter
    ∧ (∀ k, k ≠ "calculations" → aget? d' k = aget? d k)
    ∧ (wfDoc d → wfDoc d') := by
  unfold dosUpdate at h
  by_cases hk : hasKey d "calculations" = true
  · rw [if_pos hk] at h
    cases hcv : dosCalcsOf d with
    | none => rw [hcv] at h; simp at h
    | some calcs =>
        rw [hcv] at h
        simp only [] at h
        cases hf : calcs.foldlM dosCalcStep (st.dosFs, []) with
        | none => rw [hf] at h; simp at h
        | some fc =>
            rw [hf] at h
            simp only [Option.map_some', Option.some.injEq,
              Prod.mk.injEq] at h
            obtain ⟨hst, hd⟩ := h
            subst hd
            refine ⟨by rw [← hst], by rw [← hst], ?_,
              fun hw => wfDoc_aset hw⟩
            intro k hk2
            exact aget?_aset_ne (fun hc => hk2 hc.symm)
  · rw [if_neg hk] at h
    obtain ⟨h1, h2⟩ : st' = st ∧ d' = d := by
      constructor <;> simp_all
    subst h1; subst h2
    exact ⟨rfl, rfl, fun _ _ => rfl, id⟩

theorem pushAndReturnTid_tid {st : DbState} {d : Doc} {v : BVal}
    (h : (pushAndReturnTid st d).2 = some (.tid v)) :
    aget? d "task_id" = some v
    ∧ (pushAndReturnTid st d).1.coll = st.coll ++ [d] := by
  unfold pushAndReturnTid at h ⊢
  cases ht : aget? d "task_id" with
  | none => simp [ht] at h
  | some w => simp only [ht] at h ⊢; simp at h; simp [h]

theorem dos_step_spec {cfg : DroneCfg} {st : DbState} {d : Doc}
    {dn : BVal} {st1 : DbState} {d1 : Doc} (hwf : wfDoc d)
    (hdn : aget? d "dir_name" = some dn)
    (hstep : (if cfg.parseDos then dosUpdate st d else some (st, d))
      = some (st1, d1)) :
    st1.coll = st.coll ∧ aget? d1 "dir_name" = some dn ∧ wfDoc d1 := by
  by_cases hpd : cfg.parseDos = true
  · rw [if_pos hpd] at hstep
    obtain ⟨hc, _, hag, hw⟩ := dosUpdate_spec hstep
    exact ⟨hc, by rw [hag _ (by decide), hdn], hw hwf⟩
  · rw [if_neg hpd] at hstep
    obtain ⟨h1, h2⟩ : st = st1 ∧ d = d1 := by
      constructor <;> (injection hstep with h3; cases h3; rfl)
    subst h1; subst h2
    exact ⟨rfl, hdn, hwf⟩

/-- Whenever the non-simulate `_insert_doc` body returns a task id, that id
is the `task_id` of a document now in the collection with the given
`dir_name`. -/
theorem insertReal_tid {cfg : DroneCfg} {env : Env} {st : DbState} {d : Doc}
    {dn v : BVal} (hwf : wfDoc d) (hdn : aget? d "dir_name" = some dn)
    (hret : (insertReal cfg env st d dn).2 = some (.tid v)) :
    ∃ r ∈ (insertReal cfg env st d dn).1.coll,
      aget? r "dir_name" = some dn ∧ aget? r "task_id" = some v := by
  unfold insertReal at hret ⊢
  by_cases hguard :
      ((findOneByDirName st.coll dn).isNone || cfg.updateDuplicates) = true
  case neg =>
    rw [if_neg hguard] at hret
    simp at hret
  case pos =>
    rw [if_pos hguard] at hret ⊢
    cases hstep : (if cfg.parseDos then dosUpdate st d else some (st, d)) with
    | none => rw [hstep] at hret; simp at hret
    | some sd =>
        obtain ⟨st1, d1⟩ := sd
        rw [hstep] at hret
        simp only [] at hret ⊢
        obtain ⟨hcoll1, hdn1, hwf1⟩ := dos_step_spec hwf hdn hstep
        have hdn2 : aget? (aset d1 "last_updated" env.today) "dir_name"
            = some dn := by
          rw [aget?_aset_ne (by decide), hdn1]
        have hwf2 : wfDoc (aset d1 "last_updated" env.today) := wfDoc_aset hwf1
        cases hres : findOneByDirName st.coll dn with
        | none =>
            rw [hres] at hret
            simp only [] at hret ⊢
            unfold insertFresh at hret ⊢
            by_cases hfal : (!(hasKey (aset d1 "last_updated" env.today)
                "task_id")
                || !(bTruthy (getDZ (aset d1 "last_updated" env.today)
                  "task_id" .null))) = true
            · rw [if_pos hfal] at hret ⊢
              cases hc : (ensureCounter st1).counter with
              | none => rw [hc] at hret; simp at hret
              | some c =>
                  rw [hc] at hret
                  obtain ⟨htid, hcoll⟩ := pushAndReturnTid_tid hret
                  refine ⟨aset (aset d1 "last_updated" env.today) "task_id"
                    (.num c), ?_, ?_, htid⟩
                  · rw [hcoll]
                    exact List.mem_append_right _ (List.mem_singleton.mpr rfl)
                  · rw [aget?_aset_ne (by decide), hdn2]
            · rw [if_neg hfal] at hret ⊢
              obtain ⟨htid, hcoll⟩ := pushAndReturnTid_tid hret
              refine ⟨aset d1 "last_updated" env.today, ?_, hdn2, htid⟩
              rw [hcoll]
              exact List.mem_append_right _ (List.mem_singleton.mpr rfl)
        | some r0 =>
            rw [hres] at hret
            simp only [] at hret ⊢
            unfold insertUpdateDup at hret ⊢
            cases htid0 : aget? r0 "task_id" with
            | none => rw [htid0] at hret; simp at hret
            | some tid =>
                rw [htid0] at hret
                simp only [aget?_aset_self] at hret ⊢
                have hv : tid = v := by
                  simpa using hret
                subst hv
                have hfind1 : findOneByDirName st1.coll dn = some r0 := by
                  rw [hcoll1, hres]
                refine ⟨mongoSet r0 (aset (aset d1 "last_updated" env.today)
                  "task_id" tid), ?_, ?_, ?_⟩
                · exact mongoSet_mem_collUpdate _ hfind1
                · exact aget?_mongoSet_of_wf (wfDoc_aset hwf2)
                    (by rw [aget?_aset_ne (by decide), hdn2])
                · exact aget?_mongoSet_of_wf (wfDoc_aset hwf2) aget?_aset_self

/-- C4: `assimilate` is the composition of document assembly and insertion:
it returns exactly what `_insert_doc` returns on the document built by
`get_task_doc` (turning a raised exception into `False`); in simulate mode
`_insert_doc` touches no database state and returns the whole document with
`task_id` set to `0`; in non-simulate mode a returned task id is the
`task_id` of the inserted or updated document. -/
theorem assimilate_composition (cfg : DroneCfg) (env : Env) (st : DbState)
    (path : String) (d? : Option Doc)
    (hgtd : get_task_doc env path cfg.parseDos (some cfg.additionalFields)
      = some d?) :
    (assimilate cfg env st path =
      ((_insert_doc cfg env st d?).1,
        match (_insert_doc cfg env st d?).2 with
        | some r => .ret r
        | none => .failed))
    ∧ (∀ d, cfg.simulate = true →
        _insert_doc cfg env st (some d) =
          (st, some (.retDoc (aset d "task_id" (.num 0)))))
    ∧ (∀ d dn v, cfg.simulate = false → wfDoc d →
        aget? d "dir_name" = some dn →
        (_insert_doc cfg env st (some d)).2 = some (.tid v) →
        ∃ r ∈ (_insert_doc cfg env st (some d)).1.coll,
          aget? r "dir_name" = some dn ∧ aget? r "task_id" = some v) := by
  refine ⟨?_, ?_, ?_⟩
  · unfold assimilate
    rw [hgtd]
    cases hi : _insert_doc cfg env st d? with
    | mk st' r? => cases r? <;> simp [hi]
  · intro d hsim
    unfold _insert_doc
    rw [hsim]
    simp
  · intro d dn v hsim hwf hdn hret
    unfold _insert_doc at hret ⊢
    rw [hsim] at hret ⊢
    simp only [Bool.not_false, if_true, hdn] at hret ⊢
    exact insertReal_tid hwf hdn hret

/-- A minimal concrete environment for witnesses: an empty filesystem whose
oracles all raise. -/
def envT : Env where
  listdir := fun _ => []
  isDir := fun _ => false
  pathExists := fun _ => false
  abspath := fun p => "/" ++ p
  hostname := "host"
  today := .null
  vasprunToDict := fun _ => none
  mtimeStr := fun _ => ""
  cifStr := fun _ => ""
  densityOf := fun _ => 0
  dosOf := fun _ => none
  sgOf := fun _ => none
  coordNumsOf := fun _ => none
  structRoundtrip := fun _ => none
  oxiDecorated := fun _ => none
  incarOf := fun _ => none
  kpointsOf := fun _ => none
  poscarOf := fun _ => none
  potcarSymbolsOf := fun _ => none
  oszicarOf := fun _ => none
  loadJson := fun _ => none
  outcarOf := fun _ => none

def cfgT : DroneCfg := ⟨false, false, true, []⟩

def dbT : DbState := ⟨[], none, []⟩

/-- Witness for C4 at a concrete run: on an empty directory `get_task_doc`
returns `None`, `_insert_doc(None)` raises, and `assimilate` reports the
composed result `False`. -/
theorem assimilate_composition_witness :
    assimilate cfgT envT dbT "p" = (dbT, AssimRes.failed) := by
  have h := (assimilate_composition cfgT envT dbT "p" none (by rfl)).1
  rw [h]
  rfl

/-- The last element of the list matching the vasprun pattern (what repeated
`vasprun_files[subtask] = ...` assignments over a directory listing leave
behind). -/
def lastVasprunMatch : List String → Option String
  | [] => none
  | f :: fs =>
      match lastVasprunMatch fs with
      | some g => some g
      | none => if vasprunMatch f then some f else none

/-- What the aflow branch of `get_task_doc` collects, as a function of the
two subdirectory listings only. -/
def aflowCollect (l1 l2 : List String) : List (String × String) :=
  (match lastVasprunMatch l1 with
   | some f => [("relax1", joinPath "relax1" f)]
   | none => []) ++
  (match lastVasprunMatch l2 with
   | some f => [("relax2", joinPath "relax2" f)]
   | none => [])

theorem aset_aset_self {α : Type} (acc : List (String × α)) (k : String)
    (v w : α) : aset (aset acc k v) k w = aset acc k w := by
  induction acc with
  | nil => simp [aset]
  | cons p rest ih =>
      obtain ⟨k', v'⟩ := p
      simp only [aset]
      by_cases h : k' = k
      · simp [h, aset]
      · simp [h, aset, ih]

theorem collectSubtask_eq (env : Env) (path subtask : String)
    (acc : List (String × String)) :
    collectSubtask env path acc subtask =
      match lastVasprunMatch (env.listdir (joinPath path subtask)) with
      | some f => aset acc subtask (joinPath subtask f)
      | none => acc := by
  unfold collectSubtask
  generalize env.listdir (joinPath path subtask) = l
  induction l generalizing acc with
  | nil => rfl
  | cons f fs ih =>
      by_cases hm : vasprunMatch f = true
      · simp only [List.foldl_cons, hm, if_true, lastVasprunMatch, ih]
        cases lastVasprunMatch fs with
        | some g => simp [aset_aset_self]
        | none => simp [hm]
      · have hm' : vasprunMatch f = false := by simpa using hm
        simp only [List.foldl_cons, hm', Bool.false_eq_true, if_false,
          lastVasprunMatch, ih]
        cases lastVasprunMatch fs with
        | some g => simp
        | none => simp [hm']

theorem lastVasprunMatch_spec :
    ∀ {l : List String} {f : String}, lastVasprunMatch l = some f →
      f ∈ l ∧ vasprunMatch f = true
  | g :: gs, f, h => by
      unfold lastVasprunMatch at h
      cases hg : lastVasprunMatch gs with
      | some g' =>
          rw [hg] at h
          injection h with h
          subst h
          have := lastVasprunMatch_spec hg
          exact ⟨List.mem_cons_of_mem _ this.1, this.2⟩
      | none =>
          rw [hg] at h
          by_cases hm : vasprunMatch g = true
          · rw [if_pos hm] at h
            injection h with h
            subst h
            exact ⟨List.mem_cons_self _ _, hm⟩
          · rw [if_neg hm] at h
            exact absurd h (by simp)

/-- C3: when a directory listing has both `relax1` and `relax2` as
subdirectories, `get_task_doc` classifies the run as a two-part aflow-style
run: the collected vasprun files are a function of the two subdirectory
listings alone (any vasprun file of the top-level directory is ignored), at
most one file is kept per subtask, keyed by the subtask name, and every
entry is a pattern-matching file of its subtask directory. -/
theorem aflow_classification (env : Env) (path : String)
    (h1 : "relax1" ∈ env.listdir path) (h2 : "relax2" ∈ env.listdir path)
    (h3 : env.isDir (joinPath path "relax1") = true)
    (h4 : env.isDir (joinPath path "relax2") = true) :
    getVasprunFiles env path =
      aflowCollect (env.listdir (joinPath path "relax1"))
        (env.listdir (joinPath path "relax2"))
    ∧ ((getVasprunFiles env path).map Prod.fst).Nodup
    ∧ (∀ kv ∈ getVasprunFiles env path,
        (kv.1 = "relax1" ∨ kv.1 = "relax2")
        ∧ ∃ f ∈ env.listdir (joinPath path kv.1),
            vasprunMatch f = true ∧ kv.2 = joinPath kv.1 f) := by
  have hmain : getVasprunFiles env path =
      aflowCollect (env.listdir (joinPath path "relax1"))
        (env.listdir (joinPath path "relax2")) := by
    unfold getVasprunFiles
    have hc1 : (env.listdir path).contains "relax1" = true := by
      simp [List.contains, List.elem_iff, h1]
    have hc2 : (env.listdir path).contains "relax2" = true := by
      simp [List.contains, List.elem_iff, h2]
    rw [hc1, hc2, h3, h4]
    simp only [Bool.and_self, Bool.true_and, if_true]
    show collectSubtask env path (collectSubtask env path [] "relax1")
        "relax2" = _
    rw [collectSubtask_eq, collectSubtask_eq]
    unfold aflowCollect
    cases lastVasprunMatch (env.listdir (joinPath path "relax1")) with
    | some f =>
        cases lastVasprunMatch (env.listdir (joinPath path "relax2")) with
        | some g => simp [aset]
        | none => simp [aset]
    | none =>
        cases lastVasprunMatch (env.listdir (joinPath path "relax2")) with
        | some g => simp [aset]
        | none => simp [aset]
  refine ⟨hmain, ?_, ?_⟩
  · rw [hmain]
    unfold aflowCollect
    cases lastVasprunMatch (env.listdir (joinPath path "relax1")) with
    | some f =>
        cases lastVasprunMatch (env.listdir (joinPath path "relax2")) with
        | some g => simp
        | none => simp
    | none =>
        cases lastVasprunMatch (env.listdir (joinPath path "relax2")) with
        | some g => simp
        | none => simp
  · intro kv hkv
    rw [hmain] at hkv
    unfold aflowCollect at hkv
    rw [List.mem_append] at hkv
    rcases hkv with hkv | hkv
    · cases h1' : lastVasprunMatch (env.listdir (joinPath path "relax1")) with
      | some f =>
          rw [h1'] at hkv
          simp only [List.mem_singleton] at hkv
          subst hkv
          obtain ⟨hmem, hpat⟩ := lastVasprunMatch_spec h1'
          exact ⟨Or.inl rfl, f, hmem, hpat, rfl⟩
      | none => rw [h1'] at hkv; simp at hkv
    · cases h2' : lastVasprunMatch (env.listdir (joinPath path "relax2")) with
      | some f =>
          rw [h2'] at hkv
          simp only [List.mem_singleton] at hkv
          subst hkv
          obtain ⟨hmem, hpat⟩ := lastVasprunMatch_spec h2'
          exact ⟨Or.inr rfl, f, hmem, hpat, rfl⟩
      | none => rw [h2'] at hkv; simp at hkv

/-- Concrete environment for the aflow-classification witness: a top-level
vasprun file sits next to `relax1`/`relax2` and is ignored. -/
def envC3 : Env :=
  { envT with
    listdir := fun p =>
      if p = "r" then ["vasprun.xml", "relax1", "relax2"]
      else if p = "r/relax1" then ["INCAR", "vasprun.xml", "vasprun.xml.gz"]
      else if p = "r/relax2" then ["vasprun.xml.relax2"]
      else []
    isDir := fun _ => true }

/-- Witness for C3: both subtask files are collected (the later
`vasprun.xml.gz` wins in `relax1`), and the top-level `vasprun.xml` is
ignored. -/
theorem aflow_classification_witness :
    ("relax1" ∈ envC3.listdir "r")
    ∧ getVasprunFiles envC3 "r" =
        aflowCollect (envC3.listdir "r/relax1") (envC3.listdir "r/relax2") :=
  ⟨by decide,
   (aflow_classification envC3 "r" (by decide) (by decide) (by decide)
     (by decide)).1⟩

theorem killedIncar_aget (env : Env) (fn : String) (d : Doc) (k : String)
    (h1 : k ≠ "incar") (h2 : k ≠ "is_hubbard") (h3 : k ≠ "hubbards")
    (h4 : k ≠ "run_type") :
    aget? (killedIncar env fn d) k = aget? d k := by
  unfold killedIncar setRunType
  cases env.incarOf fn with
  | none => rfl
  | some inc =>
      simp only []
      repeat' split
      all_goals
        simp [aget?_aset_ne, Ne.symm h1, Ne.symm h2, Ne.symm h3, Ne.symm h4]

theorem oszicarSet_aget (d : Doc) (k0 : String) (v : BVal) (k : String)
    (h : k ≠ "oszicar") : aget? (oszicarSet d k0 v) k = aget? d k := by
  unfold oszicarSet
  cases aget? d "oszicar" with
  | none => rfl
  | some oz =>
      cases oz <;> simp [aget?_aset_ne, Ne.symm h]

/-- The killed-run file loop never touches the `state` or `dir_name`
entries of `d`. -/
theorem killedFileStep_aget (env : Env) (dirname : String) (d : Doc)
    (f : String) (k : String)
    (hks : k = "state" ∨ k = "dir_name") :
    aget? (killedFileStep env dirname d f) k = aget? d k := by
  have h : ∀ k', k' ∈ ["incar", "is_hubbard", "hubbards", "run_type",
      "kpoints", "unit_cell_formula", "reduced_cell_formula", "elements",
      "nelements", "pretty_formula", "anonymous_formula", "nsites",
      "chemsys", "poscar", "pseudo_potential", "oszicar"] → k ≠ k' := by
    rcases hks with h | h <;> (subst h; decide)
  unfold killedFileStep
  split
  · exact killedIncar_aget _ _ _ _ (h _ (by simp)) (h _ (by simp))
      (h _ (by simp)) (h _ (by simp))
  · split
    · cases env.kpointsOf (joinPath dirname f) with
      | none => rfl
      | some kp => exact aget?_aset_ne (Ne.symm (h _ (by simp)))
    · split
      · cases env.poscarOf (joinPath dirname f) with
        | none => rfl
        | some p =>
            simp only []
            rw [aget?_aset_ne (Ne.symm (h "poscar" (by simp))),
              aget?_aset_ne (Ne.symm (h "chemsys" (by simp))),
              aget?_aset_ne (Ne.symm (h "nsites" (by simp))),
              aget?_aset_ne (Ne.symm (h "anonymous_formula" (by simp))),
              aget?_aset_ne (Ne.symm (h "pretty_formula" (by simp))),
              aget?_aset_ne (Ne.symm (h "nelements" (by simp))),
              aget?_aset_ne (Ne.symm (h "elements" (by simp))),
              aget?_aset_ne (Ne.symm (h "reduced_cell_formula" (by simp))),
              aget?_aset_ne (Ne.symm (h "unit_cell_formula" (by simp)))]
      · split
        · cases env.potcarSymbolsOf (joinPath dirname f) with
          | none => rfl
          | some syms =>
              exact aget?_aset_ne (Ne.symm (h "pseudo_potential" (by simp)))
        · split
          · cases env.oszicarOf (joinPath dirname f) with
            | none => rfl
            | some oz => exact oszicarSet_aget _ _ _ _ (h _ (by simp))
          · split
            · split
              · cases env.oszicarOf
                    (joinPath (joinPath dirname f) "OSZICAR") with
                | none => rfl
                | some oz => exact oszicarSet_aget _ _ _ _ (h _ (by simp))
              · rfl
            · rfl

theorem process_killed_run_state_dir (env : Env) (dirname : String) :
    aget? (process_killed_run env dirname) "state" = some (.str "killed")
    ∧ aget? (process_killed_run env dirname) "dir_name"
        = some (.str (env.abspath dirname)) := by
  unfold process_killed_run
  simp only []
  generalize env.listdir dirname = files
  induction files using List.reverseRecOn with
  | nil => constructor <;> rfl
  | append_singleton fs f ih =>
      rw [List.foldl_append, List.foldl_cons, List.foldl_nil]
      constructor
      · rw [killedFileStep_aget env dirname _ f "state" (Or.inl rfl)]
        exact ih.1
      · rw [killedFileStep_aget env dirname _ f "dir_name" (Or.inr rfl)]
        exact ih.2

/-- C6: a path with no collected vasprun files, not itself ending in
`relax1`/`relax2`, and containing the four VASP input files (directly or
`.orig`-suffixed), is processed as a killed run: `get_task_doc` is
`post_process` applied to `process_killed_run`'s document, whose `state`
is `'killed'` and whose `dir_name` is the absolute path. -/
theorem killed_run_classification (env : Env) (path : String)
    (parseDos : Bool) (additionalFields : Option Doc)
    (hvf : getVasprunFiles env path = [])
    (he1 : strEndsWith path "relax1" = false)
    (he2 : strEndsWith path "relax2" = false)
    (hin : contains_vasp_input env path = true) :
    get_task_doc env path parseDos additionalFields =
      (post_process env path (process_killed_run env path)).map some
    ∧ aget? (process_killed_run env path) "state" = some (.str "killed")
    ∧ aget? (process_killed_run env path) "dir_name"
        = some (.str (env.abspath path)) := by
  refine ⟨?_, (process_killed_run_state_dir env path).1,
    (process_killed_run_state_dir env path).2⟩
  unfold get_task_doc
  rw [hvf, he1, he2, hin]
  simp

/-- Concrete environment for the killed-run witness: an empty directory
whose VASP input files all exist on disk. -/
def envC6 : Env := { envT with pathExists := fun _ => true }

/-- Witness for C6 at a concrete input. -/
theorem killed_run_classification_witness :
    contains_vasp_input envC6 "dead" = true
    ∧ get_task_doc envC6 "dead" false none =
        (post_process envC6 "dead" (process_killed_run envC6 "dead")).map some
    ∧ aget? (process_killed_run envC6 "dead") "state"
        = some (.str "killed") :=
  ⟨by decide,
   (killed_run_classification envC6 "dead" false none (by decide) (by decide)
      (by decide) (by decide)).1,
   (killed_run_classification envC6 "dead" false none (by decide) (by decide)
      (by decide) (by decide)).2.1⟩

/-- The number of documents of the collection carrying a given
`dir_name`. -/
def countDir (coll : List Doc) (dn : BVal) : Nat :=
  (coll.filter (fun r => decide (aget? r "dir_name" = some dn))).length

theorem collUpdate_decomp {coll : List Doc} {dn : BVal} {r : Doc}
    (hfind : findOneByDirName coll dn = some r) (d : Doc) :
    ∃ pre post, coll = pre ++ r :: post
      ∧ (∀ x ∈ pre, aget? x "dir_name" ≠ some dn)
      ∧ collUpdate dn d coll = pre ++ mongoSet r d :: post := by
  induction coll with
  | nil => simp [findOneByDirName] at hfind
  | cons r0 rest ih =>
      by_cases h0 : aget? r0 "dir_name" = some dn
      · have hr : r0 = r := by
          simpa [findOneByDirName, List.find?, h0] using hfind
        subst hr
        exact ⟨[], rest, rfl, by simp, by simp [collUpdate, h0]⟩
      · have hf : findOneByDirName rest dn = some r := by
          simpa [findOneByDirName, List.find?, h0] using hfind
        obtain ⟨pre, post, he, hpre, hupd⟩ := ih hf
        refine ⟨r0 :: pre, post, by rw [he]; rfl, ?_, ?_⟩
        · intro x hx
          rcases List.mem_cons.mp hx with hx | hx
          · subst hx; exact h0
          · exact hpre x hx
        · simp only [collUpdate, if_neg h0, hupd]
          rfl

theorem countDir_replace (pre post : List Doc) (r x : Doc) (dn : BVal)
    (hr : aget? r "dir_name" = some dn) (hx : aget? x "dir_name" = some dn) :
    countDir (pre ++ x :: post) dn = countDir (pre ++ r :: post) dn := by
  unfold countDir
  simp [List.filter_append, List.filter_cons, hr, hx]

theorem find?_to_pred {coll : List Doc} {dn : BVal} {r : Doc}
    (hfind : findOneByDirName coll dn = some r) :
    aget? r "dir_name" = some dn := by
  have := List.find?_some hfind
  simpa using this

/-- C1: insertion deduplicates by directory path: when the collection
already holds a document with the incoming `dir_name`, `_insert_doc`
(non-simulate) never grows the collection and never creates a second
document with that `dir_name`; with `update_duplicates` unset the call is a
skip that leaves the state untouched, and with it set a successful call
replaces the first matching document in place by its `$set`-update. -/
theorem insert_doc_dedup (cfg : DroneCfg) (env : Env) (st : DbState)
    (d : Doc) (dn : BVal) (r0 : Doc)
    (hsim : cfg.simulate = false) (hwf : wfDoc d)
    (hdn : aget? d "dir_name" = some dn)
    (hfind : findOneByDirName st.coll dn = some r0) :
    countDir (_insert_doc cfg env st (some d)).1.coll dn = countDir st.coll dn
    ∧ ((_insert_doc cfg env st (some d)).1.coll).length = st.coll.length
    ∧ (cfg.updateDuplicates = false →
        _insert_doc cfg env st (some d) = (st, some .noneRet))
    ∧ (cfg.updateDuplicates = true →
        (_insert_doc cfg env st (some d)).2 ≠ none →
        ∃ pre post d', st.coll = pre ++ r0 :: post
          ∧ (∀ x ∈ pre, aget? x "dir_name" ≠ some dn)
          ∧ (_insert_doc cfg env st (some d)).1.coll
              = pre ++ mongoSet r0 d' :: post
          ∧ wfDoc d' ∧ aget? d' "dir_name" = some dn) := by
  have hred : _insert_doc cfg env st (some d) = insertReal cfg env st d dn := by
    unfold _insert_doc
    rw [hsim]
    simp [hdn]
  rw [hred]
  unfold insertReal
  rw [hfind]
  simp only [Option.isNone_some, Bool.false_or]
  cases hupd : cfg.updateDuplicates with
  | false => simp
  | true =>
      simp only [if_true]
      cases hstep : (if cfg.parseDos then dosUpdate st d else some (st, d)) with
      | none =>
          exact ⟨rfl, rfl, fun h => absurd h (by simp),
            fun _ hne => absurd rfl hne⟩
      | some sd =>
          obtain ⟨st1, d1⟩ := sd
          simp only []
          obtain ⟨hcoll1, hdn1, hwf1⟩ := dos_step_spec hwf hdn hstep
          unfold insertUpdateDup
          cases htid0 : aget? r0 "task_id" with
          | none =>
              rw [hcoll1]
              exact ⟨rfl, rfl, fun h => absurd h (by simp),
                fun _ hne => absurd rfl hne⟩
          | some tid =>
              simp only [aget?_aset_self]
              have hdn3 : aget? (aset (aset d1 "last_updated" env.today)
                  "task_id" tid) "dir_name" = some dn := by
                rw [aget?_aset_ne (by decide), aget?_aset_ne (by decide), hdn1]
              have hwf3 : wfDoc (aset (aset d1 "last_updated" env.today)
                  "task_id" tid) := wfDoc_aset (wfDoc_aset hwf1)
              have hfind1 : findOneByDirName st1.coll dn = some r0 := by
                rw [hcoll1, hfind]
              obtain ⟨pre, post, he, hpre, hupd'⟩ :=
                collUpdate_decomp hfind1
                  (aset (aset d1 "last_updated" env.today) "task_id" tid)
              have hr0dn : aget? r0 "dir_name" = some dn := find?_to_pred hfind
              have hmdn : aget? (mongoSet r0 (aset (aset d1 "last_updated"
                  env.today) "task_id" tid)) "dir_name" = some dn :=
                aget?_mongoSet_of_wf hwf3 hdn3
              refine ⟨?_, ?_, fun h => absurd h (by simp),
                fun _ _ => ⟨pre, post, _, by rw [← hcoll1, he], hpre,
                  hupd', hwf3, hdn3⟩⟩
              · show countDir (collUpdate dn _ st1.coll) dn = countDir st.coll dn
                rw [hupd', ← hcoll1, he]
                exact countDir_replace pre post r0 _ dn hr0dn hmdn
              · show (collUpdate dn _ st1.coll).length = st.coll.length
                rw [hupd', ← hcoll1, he]
                simp

/-- Concrete database state for the dedup witness. -/
def dbC1 : DbState :=
  ⟨[[("dir_name", .str "host:/a"), ("task_id", .num 5)]], some 7, []⟩

def dC1 : Doc := [("dir_name", .str "host:/a"), ("extra", .num 1)]

/-- Witness for C1: updating a duplicate keeps the collection size and the
`dir_name` multiplicity. -/
theorem insert_doc_dedup_witness :
    findOneByDirName dbC1.coll (.str "host:/a")
      = some [("dir_name", .str "host:/a"), ("task_id", .num 5)]
    ∧ countDir (_insert_doc cfgT envT dbC1 (some dC1)).1.coll (.str "host:/a")
        = countDir dbC1.coll (.str "host:/a")
    ∧ ((_insert_doc cfgT envT dbC1 (some dC1)).1.coll).length
        = dbC1.coll.length :=
  ⟨by decide,
   (insert_doc_dedup cfgT envT dbC1 dC1 (.str "host:/a")
      [("dir_name", .str "host:/a"), ("task_id", .num 5)]
      (by decide) (by decide) (by decide) (by decide)).1,
   (insert_doc_dedup cfgT envT dbC1 dC1 (.str "host:/a")
      [("dir_name", .str "host:/a"), ("task_id", .num 5)]
      (by decide) (by decide) (by decide) (by decide)).2.1⟩

/-- `('task_id' not in d) or (not d['task_id'])`. -/
def taskIdFalsy (d : Doc) : Bool :=
  !(hasKey d "task_id") || !(bTruthy (getDZ d "task_id" .null))

theorem dosCalcStep_isSome (acc acc' : List BVal × List BVal) (c : BVal) :
    (dosCalcStep acc c).isSome = (dosCalcStep acc' c).isSome := by
  cases c <;> simp only [dosCalcStep] <;> try rfl
  split <;> (try split) <;> simp

theorem foldlM_dos_isSome :
    ∀ (calcs : List BVal) (acc acc' : List BVal × List BVal),
      (calcs.foldlM dosCalcStep acc).isSome
        = (calcs.foldlM dosCalcStep acc').isSome
  | [], _, _ => rfl
  | c :: cs, acc, acc' => by
      simp only [List.foldlM_cons]
      have h := dosCalcStep_isSome acc acc' c
      cases h1 : dosCalcStep acc c with
      | none =>
          rw [h1] at h
          cases h2 : dosCalcStep acc' c with
          | none => rfl
          | some b => rw [h2] at h; simp at h
      | some a =>
          rw [h1] at h
          cases h2 : dosCalcStep acc' c with
          | none => rw [h2] at h; simp at h
          | some b => exact foldlM_dos_isSome cs a b

/-- Whether the `parse_dos` gridfs block succeeds on `d` (it depends only on
the document, not on the database state). -/
def dosOk (d : Doc) : Bool := (dosUpdate ⟨[], none, []⟩ d).isSome

theorem dosUpdate_isSome_of_dosOk (st : DbState) {d : Doc}
    (h : dosOk d = true) : (dosUpdate st d).isSome = true := by
  unfold dosOk at h
  unfold dosUpdate at h ⊢
  simp only [] at h
  by_cases hk : hasKey d "calculations" = true
  · rw [if_pos hk] at h ⊢
    cases hcv : dosCalcsOf d with
    | none => rw [hcv] at h; simp at h
    | some calcs =>
        rw [hcv] at h
        simp only [] at h
        have hiso := foldlM_dos_isSome calcs (st.dosFs, [])
          (([] : List BVal), [])
        cases hf : calcs.foldlM dosCalcStep (st.dosFs, []) with
        | none =>
            exfalso
            rw [hf] at hiso
            cases hf2 : calcs.foldlM dosCalcStep (([] : List BVal), []) with
            | none => rw [hf2] at h; simp at h
            | some fc => rw [hf2] at hiso; simp at hiso
        | some fc => simp [hf]
  · rw [if_neg hk] at h ⊢
    simp

theorem ensureCounter_coll (st : DbState) :
    (ensureCounter st).coll = st.coll := by
  unfold ensureCounter; split <;> rfl

theorem ensureCounter_counter_of_eq {st st' : DbState}
    (h : st.counter = st'.counter) :
    (ensureCounter st).counter = (ensureCounter st').counter := by
  unfold ensureCounter
  rw [h]
  split <;> simp [h]

/-- A fresh insertion: no duplicate `dir_name`, no truthy incoming
`task_id`.  The assigned id is the pre-increment counter value `c`, the
counter advances to `c + 1`, and the document lands at the end of the
collection with its `dir_name` intact. -/
theorem insert_fresh_step (cfg : DroneCfg) (env : Env) (st : DbState)
    (d : Doc) (dn : BVal) (c : Int)
    (hsim : cfg.simulate = false)
    (hdn : aget? d "dir_name" = some dn)
    (hfind : findOneByDirName st.coll dn = none)
    (htid : taskIdFalsy d = true)
    (hdos : cfg.parseDos = true → dosOk d = true)
    (hc : (ensureCounter st).counter = some c) :
    ∃ d' fs, _insert_doc cfg env st (some d)
        = ({ coll := st.coll ++ [d'], counter := some (c + 1), dosFs := fs },
           some (.tid (.num c)))
      ∧ aget? d' "dir_name" = some dn := by
  have hred : _insert_doc cfg env st (some d) = insertReal cfg env st d dn := by
    unfold _insert_doc
    rw [hsim]
    simp [hdn]
  rw [hred]
  unfold insertReal
  rw [hfind]
  simp only [Option.isNone_none, Bool.true_or, if_true]
  cases hstep : (if cfg.parseDos then dosUpdate st d else some (st, d)) with
  | none =>
      exfalso
      by_cases hpd : cfg.parseDos = true
      · rw [if_pos hpd] at hstep
        have := dosUpdate_isSome_of_dosOk st (hdos hpd)
        rw [hstep] at this
        simp at this
      · rw [if_neg hpd] at hstep
        simp at hstep
  | some sd =>
      obtain ⟨st1, d1⟩ := sd
      simp only []
      have hspec : st1.coll = st.coll ∧ st1.counter = st.counter
          ∧ (∀ k, k ≠ "calculations" → aget? d1 k = aget? d k) := by
        by_cases hpd : cfg.parseDos = true
        · rw [if_pos hpd] at hstep
          obtain ⟨h1, h2, h3, _⟩ := dosUpdate_spec hstep
          exact ⟨h1, h2, h3⟩
        · rw [if_neg hpd] at hstep
          obtain ⟨h1, h2⟩ : st = st1 ∧ d = d1 := by
            constructor <;> (injection hstep with h3; cases h3; rfl)
          subst h1; subst h2
          exact ⟨rfl, rfl, fun _ _ => rfl⟩
      obtain ⟨hcoll1, hcnt1, hag1⟩ := hspec
      have htid1 : aget? (aset d1 "last_updated" env.today) "task_id"
          = aget? d "task_id" := by
        rw [aget?_aset_ne (by decide), hag1 _ (by decide)]
      have htid2 : taskIdFalsy (aset d1 "last_updated" env.today) = true := by
        unfold taskIdFalsy hasKey getDZ at htid ⊢
        rw [htid1]
        exact htid
      unfold insertFresh
      unfold taskIdFalsy at htid2
      rw [if_pos htid2]
      have hc1 : (ensureCounter st1).counter = some c := by
        rw [ensureCounter_counter_of_eq hcnt1, hc]
      rw [hc1]
      simp only []
      unfold pushAndReturnTid
      simp only [aget?_aset_self]
      refine ⟨aset (aset d1 "last_updated" env.today) "task_id" (.num c),
        (ensureCounter st1).dosFs, ?_, ?_⟩
      · rw [ensureCounter_coll, hcoll1]
      · rw [aget?_aset_ne (by decide), aget?_aset_ne (by decide),
          hag1 _ (by decide), hdn]

/-- `_insert_doc` folded over a list of documents, collecting the returned
values. -/
def runInserts (cfg : DroneCfg) (env : Env) :
    DbState → List Doc → DbState × List (Option InsertRet)
  | st, [] => (st, [])
  | st, d :: ds =>
      let p := _insert_doc cfg env st (some d)
      let q := runInserts cfg env p.1 ds
      (q.1, p.2 :: q.2)

theorem findOne_append_single (l : List Doc) (x : Doc) (dn : BVal)
    (hl : findOneByDirName l dn = none)
    (hx : aget? x "dir_name" ≠ some dn) :
    findOneByDirName (l ++ [x]) dn = none := by
  unfold findOneByDirName at *
  rw [List.find?_append, hl]
  simp [List.find?, hx]

theorem runInserts_fresh_aux (cfg : DroneCfg) (env : Env)
    (hsim : cfg.simulate = false) :
    ∀ (docs : List Doc) (st : DbState) (dns : List BVal) (c : Int),
      (ensureCounter st).counter = some c →
      docs.map (fun d => aget? d "dir_name") = dns.map some →
      dns.Nodup →
      (∀ dn ∈ dns, findOneByDirName st.coll dn = none) →
      (∀ d ∈ docs, taskIdFalsy d = true) →
      (∀ d ∈ docs, cfg.parseDos = true → dosOk d = true) →
      (runInserts cfg env st docs).2
          = (List.range docs.length).map
              (fun i => some (.tid (.num (c + i))))
        ∧ (ensureCounter (runInserts cfg env st docs).1).counter
            = some (c + docs.length)
  | [], st, dns, c, hc, hmap, _, _, _, _ => by
      refine ⟨by simp [runInserts], ?_⟩
      show (ensureCounter st).counter = some (c + (([] : List Doc)).length)
      rw [hc]
      norm_num
  | d :: ds, st, dns, c, hc, hmap, hnodup, hnew, htid, hdos => by
      cases dns with
      | nil => simp at hmap
      | cons dn dns' =>
          simp only [List.map_cons, List.cons.injEq] at hmap
          obtain ⟨hdn, hmap'⟩ := hmap
          obtain ⟨d', fs, hstep, hd'dn⟩ :=
            insert_fresh_step cfg env st d dn c hsim hdn
              (hnew dn (List.mem_cons_self _ _))
              (htid d (List.mem_cons_self _ _))
              (hdos d (List.mem_cons_self _ _)) hc
          have hnodup' : dns'.Nodup := (List.nodup_cons.mp hnodup).2
          have hdnmem : dn ∉ dns' := (List.nodup_cons.mp hnodup).1
          have ih := runInserts_fresh_aux cfg env hsim ds
            { coll := st.coll ++ [d'], counter := some (c + 1), dosFs := fs }
            dns' (c + 1) (by simp [ensureCounter]) hmap' hnodup'
            (by
              intro dn' hmem
              refine findOne_append_single _ _ _
                (hnew dn' (List.mem_cons_of_mem _ hmem)) ?_
              rw [hd'dn]
              intro hcon
              injection hcon with hcon
              exact hdnmem (hcon ▸ hmem))
            (fun x hx => htid x (List.mem_cons_of_mem _ hx))
            (fun x hx => hdos x (List.mem_cons_of_mem _ hx))
          constructor
          · simp only [runInserts]
            rw [hstep]
            simp only [List.length_cons]
            rw [ih.1, List.range_succ_eq_map]
            simp only [List.map_cons, List.map_map]
            refine congrArg₂ _ (by norm_num) ?_
            apply List.map_congr_left
            intro i _
            simp only [Function.comp]
            congr 1
            push_cast
            ring
          · simp only [runInserts]
            rw [hstep]
            simp only [List.length_cons]
            rw [ih.2]
            congr 1
            push_cast
            ring

/-- C2: task identifiers are assigned sequentially: starting from an absent
counter document, a run of fresh insertions (no duplicate `dir_name`, no
truthy pre-existing `task_id`) draws ids from the `taskid` counter (created
with `c = 1`, incremented by 1 per draw, returning the pre-increment value),
so the assigned ids are the consecutive integers `1, 2, …, n`. -/
theorem sequential_task_ids (cfg : DroneCfg) (env : Env) (st : DbState)
    (docs : List Doc) (dns : List BVal)
    (hsim : cfg.simulate = false)
    (hc0 : st.counter = none)
    (hmap : docs.map (fun d => aget? d "dir_name") = dns.map some)
    (hnodup : dns.Nodup)
    (hnew : ∀ dn ∈ dns, findOneByDirName st.coll dn = none)
    (htid : ∀ d ∈ docs, taskIdFalsy d = true)
    (hdos : ∀ d ∈ docs, cfg.parseDos = true → dosOk d = true) :
    (runInserts cfg env st docs).2
      = (List.range docs.length).map
          (fun i => some (.tid (.num (1 + i))))
    ∧ (ensureCounter (runInserts cfg env st docs).1).counter
        = some (1 + docs.length) := by
  have hc : (ensureCounter st).counter = some 1 := by
    simp [ensureCounter, hc0]
  exact runInserts_fresh_aux cfg env hsim docs st dns 1 hc hmap hnodup hnew
    htid hdos

def dC2a : Doc := [("dir_name", .str "host:/a")]

def dC2b : Doc := [("dir_name", .str "host:/b")]

/-- Witness for C2: two fresh insertions into an empty database receive
task ids 1 and 2. -/
theorem sequential_task_ids_witness :
    (runInserts cfgT envT dbT [dC2a, dC2b]).2
      = [some (.tid (.num 1)), some (.tid (.num 2))] :=
  (sequential_task_ids cfgT envT dbT [dC2a, dC2b]
      [.str "host:/a", .str "host:/b"] (by decide) (by decide) (by decide)
      (by decide) (by decide) (by decide) (by decide)).1.trans (by decide)

/-- The task id currently associated with a `dir_name` (that of the first
matching document, the one `find_one` returns). -/
def taskIdOf (coll : List Doc) (dn : BVal) : Option BVal :=
  (findOneByDirName coll dn).bind (fun r => aget? r "task_id")

/-- A sequence of `_insert_doc` calls (with arbitrary per-call drone
configurations), threading the database state. -/
def runOps (env : Env) : DbState → List (DroneCfg × Option Doc) → DbState
  | st, [] => st
  | st, op :: ops => runOps env (_insert_doc op.1 env st op.2).1 ops

/-- The document of an operation, when there is one, has distinct keys (as
every Python dict does). -/
def opWf : DroneCfg × Option Doc → Prop
  | (_, some d) => wfDoc d
  | (_, none) => True

instance : (op : DroneCfg × Option Doc) → Decidable (opWf op)
  | (_, some d) => inferInstanceAs (Decidable (wfDoc d))
  | (_, none) => inferInstanceAs (Decidable True)

theorem findOne_append_of_some {l : List Doc} {dn : BVal} {r : Doc}
    (h : findOneByDirName l dn = some r) (x : Doc) :
    findOneByDirName (l ++ [x]) dn = some r := by
  unfold findOneByDirName at *
  rw [List.find?_append, h]
  rfl

theorem findOne_decomp_first (pre post : List Doc) (x : Doc) (dn : BVal)
    (hpre : ∀ y ∈ pre, aget? y "dir_name" ≠ some dn)
    (hx : aget? x "dir_name" = some dn) :
    findOneByDirName (pre ++ x :: post) dn = some x := by
  induction pre with
  | nil => simp [findOneByDirName, List.find?, hx]
  | cons y ys ih =>
      have hy : aget? y "dir_name" ≠ some dn :=
        hpre y (List.mem_cons_self _ _)
      simp only [List.cons_append, findOneByDirName, List.find?]
      have : (decide (aget? y "dir_name" = some dn)) = false := by
        simpa using hy
      rw [this]
      exact ih (fun z hz => hpre z (List.mem_cons_of_mem _ hz))

theorem findOne_collUpdate_ne (l : List Doc) (dn dn' : BVal) (d : Doc)
    (hne : dn' ≠ dn) (hwf : wfDoc d)
    (hd : aget? d "dir_name" = some dn') :
    findOneByDirName (collUpdate dn' d l) dn = findOneByDirName l dn := by
  induction l with
  | nil => rfl
  | cons r0 rest ih =>
      by_cases h0 : aget? r0 "dir_name" = some dn'
      · have hm : aget? (mongoSet r0 d) "dir_name" = some dn' :=
          aget?_mongoSet_of_wf hwf hd
        have h0dn : (decide (aget? r0 "dir_name" = some dn)) = false := by
          simp [h0, hne]
        have hmdn : (decide (aget? (mongoSet r0 d) "dir_name" = some dn))
            = false := by
          simp [hm, hne]
        simp only [collUpdate, if_pos h0, findOneByDirName, List.find?,
          h0dn, hmdn]
      · simp only [collUpdate, if_neg h0, findOneByDirName, List.find?]
        cases hdec : decide (aget? r0 "dir_name" = some dn) with
        | true => rfl
        | false => exact ih

theorem taskIdOf_pushAndReturnTid (st : DbState) (d : Doc) (dn tid : BVal)
    (h : taskIdOf st.coll dn = some tid) :
    taskIdOf (pushAndReturnTid st d).1.coll dn = some tid := by
  obtain ⟨r, hr, htid⟩ : ∃ r, findOneByDirName st.coll dn = some r
      ∧ aget? r "task_id" = some tid := by
    unfold taskIdOf at h
    cases hf : findOneByDirName st.coll dn with
    | none => rw [hf] at h; simp at h
    | some r => rw [hf] at h; exact ⟨r, rfl, by simpa using h⟩
  unfold pushAndReturnTid
  cases ht : aget? d "task_id" <;>
    (simp only []
     unfold taskIdOf
     rw [findOne_append_of_some hr]
     simpa using htid)

/-- One `_insert_doc` call never changes an already-assigned
`dir_name → task_id` association. -/
theorem taskIdOf_step (cfg : DroneCfg) (env : Env) (st : DbState)
    (d? : Option Doc) (dn tid : BVal)
    (hwf : opWf (cfg, d?))
    (h : taskIdOf st.coll dn = some tid) :
    taskIdOf (_insert_doc cfg env st d?).1.coll dn = some tid := by
  obtain ⟨r, hr, htid⟩ : ∃ r, findOneByDirName st.coll dn = some r
      ∧ aget? r "task_id" = some tid := by
    unfold taskIdOf at h
    cases hf : findOneByDirName st.coll dn with
    | none => rw [hf] at h; simp at h
    | some r => rw [hf] at h; exact ⟨r, rfl, by simpa using h⟩
  unfold _insert_doc
  cases hsim : cfg.simulate with
  | true =>
      simp only [Bool.not_true, Bool.false_eq_true, if_false]
      cases d? <;> exact h
  | false =>
      simp only [Bool.not_false, if_true]
      cases d? with
      | none => exact h
      | some d =>
          simp only []
          cases hdn' : aget? d "dir_name" with
          | none => exact h
          | some dn' =>
              simp only []
              unfold insertReal
              by_cases hguard :
                  ((findOneByDirName st.coll dn').isNone
                    || cfg.updateDuplicates) = true
              case neg => rw [if_neg hguard]; exact h
              case pos =>
                  rw [if_pos hguard]
                  cases hstep : (if cfg.parseDos then dosUpdate st d
                      else some (st, d)) with
                  | none => exact h
                  | some sd =>
                      obtain ⟨st1, d1⟩ := sd
                      simp only []
                      have hwf' : wfDoc d := hwf
                      obtain ⟨hcoll1, hdn1, hwf1⟩ :=
                        dos_step_spec hwf' hdn' hstep
                      have hr1 : findOneByDirName st1.coll dn = some r := by
                        rw [hcoll1]; exact hr
                      cases hres : findOneByDirName st.coll dn' with
                      | none =>
                          unfold insertFresh
                          by_cases hfal : (!hasKey (aset d1 "last_updated"
                              env.today) "task_id"
                              || !bTruthy (getDZ (aset d1 "last_updated"
                                env.today) "task_id" BVal.null)) = true
                          · rw [if_pos hfal]
                            cases hc : (ensureCounter st1).counter with
                            | none =>
                                show taskIdOf (ensureCounter st1).coll dn
                                    = some tid
                                rw [ensureCounter_coll]
                                unfold taskIdOf
                                rw [hr1]
                                simpa using htid
                            | some c =>
                                apply taskIdOf_pushAndReturnTid
                                show taskIdOf (ensureCounter st1).coll dn
                                    = some tid
                                rw [ensureCounter_coll]
                                unfold taskIdOf
                                rw [hr1]
                                simpa using htid
                          · rw [if_neg hfal]
                            apply taskIdOf_pushAndReturnTid
                            unfold taskIdOf
                            rw [hr1]
                            simpa using htid
                      | some r0 =>
                          simp only []
                          unfold insertUpdateDup
                          cases htid0 : aget? r0 "task_id" with
                          | none =>
                              show taskIdOf st1.coll dn = some tid
                              rw [hcoll1]
                              exact h
                          | some tid0 =>
                              simp only [aget?_aset_self]
                              have hd3dn : aget? (aset (aset d1
                                  "last_updated" env.today) "task_id" tid0)
                                  "dir_name" = some dn' := by
                                rw [aget?_aset_ne (by decide),
                                  aget?_aset_ne (by decide), hdn1]
                              have hwf3 : wfDoc (aset (aset d1
                                  "last_updated" env.today) "task_id"
                                  tid0) := wfDoc_aset (wfDoc_aset hwf1)
                              by_cases hdneq : dn' = dn
                              · subst hdneq
                                have hr0 : r0 = r := by
                                  rw [hres] at hr
                                  injection hr
                                subst hr0
                                have htid0' : tid0 = tid := by
                                  rw [htid0] at htid
                                  injection htid
                                subst htid0'
                                obtain ⟨pre, post, he, hpre, hupd⟩ :=
                                  collUpdate_decomp hr1
                                    (aset (aset d1 "last_updated" env.today)
                                      "task_id" tid0)
                                show taskIdOf (collUpdate dn' _ st1.coll)
                                    dn' = some tid0
                                rw [hupd]
                                unfold taskIdOf
                                rw [findOne_decomp_first pre post _ dn' hpre
                                  (aget?_mongoSet_of_wf hwf3 hd3dn)]
                                simp only [Option.some_bind]
                                exact aget?_mongoSet_of_wf hwf3
                                  aget?_aset_self
                              · show taskIdOf (collUpdate dn' _ st1.coll)
                                    dn = some tid
                                unfold taskIdOf
                                rw [findOne_collUpdate_ne st1.coll dn dn' _
                                  hdneq hwf3 hd3dn, hr1]
                                simpa using htid

/-- C9: task ids are stable under re-assimilation: once a `dir_name` is
associated with a `task_id` in the collection, no sequence of further
`_insert_doc` operations (fresh inserts, duplicate updates or skips, in any
mode) changes that association — a duplicate update first overwrites the
incoming `task_id` with the stored one. -/
theorem task_id_stable (env : Env) (st : DbState) (dn tid : BVal)
    (ops : List (DroneCfg × Option Doc))
    (hwf : ∀ op ∈ ops, opWf op)
    (h : taskIdOf st.coll dn = some tid) :
    taskIdOf (runOps env st ops).coll dn = some tid := by
  induction ops generalizing st with
  | nil => exact h
  | cons op ops ih =>
      obtain ⟨cfg, d?⟩ := op
      exact ih _ (fun x hx => hwf x (List.mem_cons_of_mem _ hx))
        (taskIdOf_step cfg env st d? dn tid
          (hwf _ (List.mem_cons_self _ _)) h)

/-- Witness for C9: a duplicate update with a different incoming `task_id`
leaves the stored association untouched. -/
theorem task_id_stable_witness :
    taskIdOf dbC1.coll (.str "host:/a") = some (.num 5)
    ∧ taskIdOf (runOps envT dbC1
        [(cfgT, some [("dir_name", .str "host:/a"), ("task_id", .num 99)])]
        ).coll (.str "host:/a") = some (.num 5) :=
  ⟨by decide,
   task_id_stable envT dbC1 (.str "host:/a") (.num 5)
     [(cfgT, some [("dir_name", .str "host:/a"), ("task_id", .num 99)])]
     (by decide) (by decide)⟩

theorem foldCopy_spec (d2 : Doc) :
    ∀ (ks : List String) (d0 R : Doc),
      ks.foldlM (fun d k => (aget? d2 k).map (fun v => aset d k v)) d0
        = some R →
      (∀ k ∈ ks, aget? R k = aget? d2 k)
      ∧ (∀ k, k ∉ ks → aget? R k = aget? d0 k)
  | [], d0, R, h => by
      injection h with h
      subst h
      exact ⟨by simp, fun _ _ => rfl⟩
  | k0 :: ks, d0, R, h => by
      rw [List.foldlM_cons] at h
      cases hv : aget? d2 k0 with
      | none => rw [hv] at h; simp at h
      | some v0 =>
          rw [hv] at h
          simp only [Option.map_some', Option.some_bind] at h
          obtain ⟨hin, hout⟩ := foldCopy_spec d2 ks (aset d0 k0 v0) R h
          constructor
          · intro k hk
            rcases List.mem_cons.mp hk with hk0 | hk'
            · subst hk0
              by_cases hmem : k ∈ ks
              · exact hin k hmem
              · rw [hout k hmem, aget?_aset_self, hv]
            · exact hin k hk'
          · intro k hk
            have hk0 : k ≠ k0 := fun hc => hk (hc ▸ List.mem_cons_self _ _)
            have hks : k ∉ ks := fun hc => hk (List.mem_cons_of_mem _ hc)
            rw [hout k hks, aget?_aset_ne (Ne.symm hk0)]

theorem genDocCalcs_spec {env : Env} {dirname : String}
    {vfs : List (String × String)} {pd : Bool} {af : Option Doc}
    {dc : Doc × List Doc}
    (h : genDocCalcs env dirname vfs pd af = some dc) :
    vfs.mapM (fun tf => process_vasprun env dirname tf.1 tf.2 pd)
        = some dc.2
    ∧ aget? dc.1 "calculations" = some (.arr (dc.2.map BVal.doc)) := by
  unfold genDocCalcs at h
  simp only [Option.bind_eq_bind, Option.bind_eq_some] at h
  obtain ⟨calcs, hcalcs, h⟩ := h
  injection h with h
  subst h
  exact ⟨hcalcs, by simp [aget?_aset_self]⟩

theorem genDocRoot_spec {d0 d1 d2 R : Doc} (h : genDocRoot d0 d1 d2 = some R) :
    (∀ k ∈ rootKeys, aget? R k = aget? d2 k)
    ∧ (∃ ic, dpath? d1 ["input", "crystal"] = some ic
        ∧ aget? R "input" = some (inputSection ic))
    ∧ (∀ k, k ∉ rootKeys → k ≠ "chemsys" → k ≠ "input" →
        aget? R k = aget? d0 k)
    ∧ (∃ ev els ns, aget? d2 "elements" = some ev ∧ asArr ev = some els
        ∧ els.mapM asStr = some ns
        ∧ aget? R "chemsys"
            = some (.str (String.intercalate "-" (sortStrs ns)))) := by
  unfold genDocRoot at h
  simp only [Option.bind_eq_bind, Option.bind_eq_some] at h
  obtain ⟨df, hdf, h⟩ := h
  obtain ⟨els, hels, h⟩ := h
  obtain ⟨elNames, hnames, h⟩ := h
  obtain ⟨ic, hic, h⟩ := h
  injection h with h
  subst h
  have hfold := foldCopy_spec d2 rootKeys d0 df hdf
  obtain ⟨ev, hev, hevarr⟩ := hels
  refine ⟨?_, ⟨ic, hic, by simp [aget?_aset_self]⟩, ?_,
    ⟨ev, els, elNames, hev, hevarr, hnames, ?_⟩⟩
  · intro k hk
    have hne : k ≠ "chemsys" ∧ k ≠ "input" := by
      fin_cases hk <;> exact ⟨by decide, by decide⟩
    rw [aget?_aset_ne (Ne.symm hne.2), aget?_aset_ne (Ne.symm hne.1)]
    exact hfold.1 k hk
  · intro k hk h1 h2
    rw [aget?_aset_ne (Ne.symm h2), aget?_aset_ne (Ne.symm h1)]
    exact hfold.2 k hk
  · rw [aget?_aset_ne (by decide), aget?_aset_self]

theorem genDocAnon_spec {d d2 R : Doc} (h : genDocAnon d d2 = some R) :
    ∀ k, k ≠ "anonymous_formula" → aget? R k = aget? d k := by
  unfold genDocAnon at h
  simp only [Option.bind_eq_bind, Option.bind_eq_some] at h
  obtain ⟨rcf, _, h⟩ := h
  obtain ⟨vals, _, h⟩ := h
  obtain ⟨anon, _, h⟩ := h
  injection h with h
  subst h
  intro k hk
  exact aget?_aset_ne (Ne.symm hk)

theorem genDocOutput_spec {d d2 R : Doc} (h : genDocOutput d d2 = some R) :
    (∃ oc fe fepa, dpath? d2 ["output", "crystal"] = some oc
      ∧ dpath? d2 ["output", "final_energy"] = some fe
      ∧ dpath? d2 ["output", "final_energy_per_atom"] = some fepa
      ∧ aget? R "output" = some (outputSection oc fe fepa))
    ∧ (∀ k, k ≠ "output" → k ≠ "name" → k ≠ "pseudo_potential" →
        aget? R k = aget? d k) := by
  unfold genDocOutput at h
  simp only [Option.bind_eq_bind, Option.bind_eq_some] at h
  obtain ⟨oc, hoc, h⟩ := h
  obtain ⟨fe, hfe, h⟩ := h
  obtain ⟨fepa, hfepa, h⟩ := h
  obtain ⟨pc, hpc, h⟩ := h
  injection h with h
  subst h
  constructor
  · refine ⟨oc, fe, fepa, hoc, hfe, hfepa, ?_⟩
    rw [aget?_aset_ne (by decide), aget?_aset_ne (by decide),
      aget?_aset_self]
  · intro k h1 h2 h3
    rw [aget?_aset_ne (Ne.symm h3), aget?_aset_ne (Ne.symm h2),
      aget?_aset_ne (Ne.symm h1)]

theorem genDocState_spec {d d2 : Doc} {n : Nat}
    {vfs : List (String × String)} {R : Doc}
    (h : genDocState d d2 n vfs = some R) :
    ∀ k, k ≠ "state" → aget? R k = aget? d k := by
  unfold genDocState at h
  intro k hk
  cases hc : genDocStateCond n vfs with
  | none => rw [hc] at h; simp at h
  | some cond =>
      rw [hc] at h
      cases cond with
      | true =>
          simp only [Option.map_eq_some'] at h
          obtain ⟨hvc, _, h⟩ := h
          subst h
          exact aget?_aset_ne (Ne.symm hk)
      | false =>
          injection h with h
          subst h
          exact aget?_aset_ne (Ne.symm hk)

theorem gba_shape {env : Env} {d : Doc} {a : Doc}
    (h : get_basic_analysis_and_error_checks env d = some a) :
    ∃ dv pv w cn g cb vb isd bv,
      a = analysisResult dv pv w cn g cb vb isd bv := by
  unfold get_basic_analysis_and_error_checks at h
  simp only [Option.bind_eq_bind, Option.bind_eq_some] at h
  obtain ⟨iv, _, h⟩ := h
  obtain ⟨fv, _, h⟩ := h
  split at h
  · simp at h
  · simp only [Option.bind_eq_some] at h
    obtain ⟨cn, _, h⟩ := h
    obtain ⟨calcs, _, h⟩ := h
    obtain ⟨lastCalc, _, h⟩ := h
    obtain ⟨g, _, h⟩ := h
    obtain ⟨cb, _, h⟩ := h
    obtain ⟨vb, _, h⟩ := h
    obtain ⟨isd, _, h⟩ := h
    obtain ⟨crystal, _, h⟩ := h
    obtain ⟨bvb, _, h⟩ := h
    injection h with h
    exact ⟨_, _, _, _, _, _, _, _, _, h.symm⟩

theorem genDocFinal_spec {env : Env} {d R : Doc}
    (h : genDocFinal env d = some R) :
    (∃ ana, get_basic_analysis_and_error_checks env d = some ana
      ∧ aget? R "analysis" = some (.doc ana))
    ∧ (∃ sg, aget? R "spacegroup" = some (spacegroupSection sg))
    ∧ (∀ k, k ≠ "analysis" → k ≠ "spacegroup" → k ≠ "last_updated" →
        aget? R k = aget? d k) := by
  unfold genDocFinal at h
  simp only [Option.bind_eq_bind, Option.bind_eq_some] at h
  obtain ⟨ana, hana, h⟩ := h
  obtain ⟨sgc, hsgc, h⟩ := h
  obtain ⟨sg, hsg, h⟩ := h
  injection h with h
  subst h
  refine ⟨⟨ana, hana, ?_⟩, ⟨sg, ?_⟩, ?_⟩
  · rw [aget?_aset_ne (by decide), aget?_aset_ne (by decide),
      aget?_aset_self]
  · rw [aget?_aset_ne (by decide), aget?_aset_self]
  · intro k h1 h2 h3
    rw [aget?_aset_ne (Ne.symm h3), aget?_aset_ne (Ne.symm h2),
      aget?_aset_ne (Ne.symm h1)]

theorem process_vasprun_cif {env : Env} {dirname taskname filename : String}
    {pd : Bool} {c : Doc} (h : process_vasprun env dirname taskname filename
      pd = some c) :
    ∃ s, aget? c "cif" = some (.str s) := by
  unfold process_vasprun at h
  simp only [Option.bind_eq_bind, Option.bind_eq_some] at h
  obtain ⟨d0, _, h⟩ := h
  injection h with h
  subst h
  refine ⟨env.cifStr (joinPath dirname filename), ?_⟩
  split <;>
    (rw [aget?_aset_ne (by decide)]
     split
     · split
       · rw [aget?_aset_ne (by decide), aget?_aset_ne (by decide),
           aget?_aset_self]
       · rw [aget?_aset_ne (by decide), aget?_aset_self]
     · rw [aget?_aset_ne (by decide), aget?_aset_self])

/-- The stage decomposition of a successful `generate_doc`. -/
theorem generate_doc_stages {env : Env} {dirname : String}
    {vfs : List (String × String)} {pd : Bool} {af : Option Doc} {d : Doc}
    (h : generate_doc env dirname vfs pd af = some d) :
    ∃ dc d1 d2 d3 d4 d5 d6,
      genDocCalcs env dirname vfs pd af = some dc
      ∧ dc.2.head? = some d1 ∧ dc.2.getLast? = some d2
      ∧ genDocRoot dc.1 d1 d2 = some d3
      ∧ genDocAnon d3 d2 = some d4
      ∧ genDocOutput d4 d2 = some d5
      ∧ genDocState d5 d2 dc.2.length vfs = some d6
      ∧ genDocFinal env d6 = some d := by
  unfold generate_doc at h
  simp only [Option.bind_eq_bind, Option.bind_eq_some] at h
  obtain ⟨dc, hdc, h⟩ := h
  obtain ⟨d1, hd1, h⟩ := h
  obtain ⟨d2, hd2, h⟩ := h
  obtain ⟨d3, hd3, h⟩ := h
  obtain ⟨d4, hd4, h⟩ := h
  obtain ⟨d5, hd5, h⟩ := h
  obtain ⟨d6, hd6, h⟩ := h
  exact ⟨dc, d1, d2, d3, d4, d5, d6, hdc, hd1, hd2, hd3, hd4, hd5, hd6, h⟩

/-- `(dpath? d p).isSome`: the nested path exists in the document. -/
def hasPath (d : Doc) (p : List String) : Bool := (dpath? d p).isSome

theorem hasPath_two {d : Doc} {k1 k2 : String} {v w : BVal}
    (h1 : aget? d k1 = some v) (h2 : bget? v k2 = some w) :
    hasPath d [k1, k2] = true := by
  unfold hasPath
  simp [dpath?, dpath?.bpath?, h1, h2]

theorem spacegroupSection_get (sg : SgInfo) :
    bget? (spacegroupSection sg) "symbol" = some (.str sg.symbol)
    ∧ bget? (spacegroupSection sg) "number" = some (.num sg.number)
    ∧ bget? (spacegroupSection sg) "point_group" = some (.str sg.pointGroup)
    ∧ bget? (spacegroupSection sg) "crystal_system"
        = some (.str sg.crystalSystem)
    ∧ bget? (spacegroupSection sg) "hall" = some (.str sg.hall) :=
  ⟨rfl, rfl, rfl, rfl, rfl⟩

theorem outputSection_get (oc fe fepa : BVal) :
    bget? (outputSection oc fe fepa) "final_energy" = some fe
    ∧ bget? (outputSection oc fe fepa) "final_energy_per_atom" = some fepa :=
  ⟨rfl, rfl⟩

theorem analysisResult_get (dv pv : Int) (w : List BVal)
    (cn g cb vb isd bv : BVal) :
    bget? (.doc (analysisResult dv pv w cn g cb vb isd bv)) "delta_volume"
        = some (.num dv)
    ∧ bget? (.doc (analysisResult dv pv w cn g cb vb isd bv))
        "percent_delta_volume" = some (.num pv)
    ∧ bget? (.doc (analysisResult dv pv w cn g cb vb isd bv)) "warnings"
        = some (.arr w)
    ∧ bget? (.doc (analysisResult dv pv w cn g cb vb isd bv))
        "coordination_numbers" = some cn
    ∧ bget? (.doc (analysisResult dv pv w cn g cb vb isd bv)) "bandgap"
        = some g
    ∧ bget? (.doc (analysisResult dv pv w cn g cb vb isd bv)) "bv_structure"
        = some bv :=
  ⟨rfl, rfl, rfl, rfl, rfl, rfl⟩

theorem mapM_mem_exists {α β : Type} {f : α → Option β} :
    ∀ {l : List α} {res : List β}, l.mapM f = some res →
      ∀ b ∈ res, ∃ a ∈ l, f a = some b
  | [], res, h, b, hb => by
      injection h with h
      subst h
      simp at hb
  | a :: as, res, h, b, hb => by
      rw [List.mapM_cons] at h
      simp only [Option.bind_eq_bind, Option.bind_eq_some,
        Option.pure_def, Option.some.injEq] at h
      obtain ⟨b0, hb0, rest, hrest, hres⟩ := h
      subst hres
      rcases List.mem_cons.mp hb with hbb | hbb
      · exact ⟨a, List.mem_cons_self _ _, hbb ▸ hb0⟩
      · obtain ⟨a', ha', hfa'⟩ := mapM_mem_exists hrest b hbb
        exact ⟨a', List.mem_cons_of_mem _ ha', hfa'⟩

/-- C5: every document successfully produced by `generate_doc` carries a
`spacegroup` entry with `symbol`, `number`, `point_group`, `crystal_system`
and `hall`, an `output` entry with `final_energy` and
`final_energy_per_atom`, a string `cif`, and an `analysis` entry with
`delta_volume`, `percent_delta_volume`, `warnings`,
`coordination_numbers`, `bandgap` and `bv_structure`. -/
theorem generated_doc_structure (env : Env) (dirname : String)
    (vfs : List (String × String)) (parseDos : Bool) (af : Option Doc)
    (d : Doc) (h : generate_doc env dirname vfs parseDos af = some d) :
    hasPath d ["spacegroup", "symbol"] = true
    ∧ hasPath d ["spacegroup", "number"] = true
    ∧ hasPath d ["spacegroup", "point_group"] = true
    ∧ hasPath d ["spacegroup", "crystal_system"] = true
    ∧ hasPath d ["spacegroup", "hall"] = true
    ∧ hasPath d ["output", "final_energy"] = true
    ∧ hasPath d ["output", "final_energy_per_atom"] = true
    ∧ (∃ s, aget? d "cif" = some (.str s))
    ∧ hasPath d ["analysis", "delta_volume"] = true
    ∧ hasPath d ["analysis", "percent_delta_volume"] = true
    ∧ hasPath d ["analysis", "warnings"] = true
    ∧ hasPath d ["analysis", "coordination_numbers"] = true
    ∧ hasPath d ["analysis", "bandgap"] = true
    ∧ hasPath d ["analysis", "bv_structure"] = true := by
  obtain ⟨dc, d1, d2, d3, d4, d5, d6, hdc, hd1, hd2, hd3, hd4, hd5, hd6,
    hfin⟩ := generate_doc_stages h
  obtain ⟨⟨ana, hana, hanaget⟩, ⟨sg, hsg⟩, hfEls⟩ := genDocFinal_spec hfin
  obtain ⟨dv, pv, w, cn, g, cb, vb, isd, bv, hshape⟩ := gba_shape hana
  subst hshape
  have hdTOd3 : ∀ k, k ≠ "analysis" → k ≠ "spacegroup" →
      k ≠ "last_updated" → k ≠ "state" → k ≠ "output" → k ≠ "name" →
      k ≠ "pseudo_potential" → k ≠ "anonymous_formula" →
      aget? d k = aget? d3 k := by
    intro k h1 h2 h3 h4 h5 h6 h7 h8
    rw [hfEls k h1 h2 h3, genDocState_spec hd6 k h4,
      (genDocOutput_spec hd5).2 k h5 h6 h7, genDocAnon_spec hd4 k h8]
  obtain ⟨⟨oc, fe, fepa, hoc, hfe, hfepa, hout5⟩, hout2⟩ :=
    genDocOutput_spec hd5
  have houtd : aget? d "output" = some (outputSection oc fe fepa) := by
    rw [hfEls _ (by decide) (by decide) (by decide),
      genDocState_spec hd6 _ (by decide)]
    exact hout5
  have hcifd : aget? d "cif" = aget? d2 "cif" := by
    rw [hdTOd3 _ (by decide) (by decide) (by decide) (by decide) (by decide)
      (by decide) (by decide) (by decide)]
    exact (genDocRoot_spec hd3).1 "cif" (by simp [rootKeys])
  have hd2mem : d2 ∈ dc.2 := List.mem_of_mem_getLast? hd2
  obtain ⟨tf, htf, hpv⟩ := mapM_mem_exists (genDocCalcs_spec hdc).1 d2 hd2mem
  obtain ⟨s, hs⟩ := process_vasprun_cif hpv
  exact ⟨hasPath_two hsg (spacegroupSection_get sg).1,
    hasPath_two hsg (spacegroupSection_get sg).2.1,
    hasPath_two hsg (spacegroupSection_get sg).2.2.1,
    hasPath_two hsg (spacegroupSection_get sg).2.2.2.1,
    hasPath_two hsg (spacegroupSection_get sg).2.2.2.2,
    hasPath_two houtd (outputSection_get oc fe fepa).1,
    hasPath_two houtd (outputSection_get oc fe fepa).2,
    ⟨s, by rw [hcifd]; exact hs⟩,
    hasPath_two hanaget (analysisResult_get dv pv w cn g cb vb isd bv).1,
    hasPath_two hanaget (analysisResult_get dv pv w cn g cb vb isd bv).2.1,
    hasPath_two hanaget
      (analysisResult_get dv pv w cn g cb vb isd bv).2.2.1,
    hasPath_two hanaget
      (analysisResult_get dv pv w cn g cb vb isd bv).2.2.2.1,
    hasPath_two hanaget
      (analysisResult_get dv pv w cn g cb vb isd bv).2.2.2.2.1,
    hasPath_two hanaget
      (analysisResult_get dv pv w cn g cb vb isd bv).2.2.2.2.2⟩

/-- A concrete crystal dict for the witness environment. -/
def crystalW : BVal := .doc [("lattice", .doc [("volume", .num 2)])]

/-- A concrete `Vasprun(...).to_dict` for the witness environment. -/
def vasprunDocW : Doc :=
  [("nsites", .num 2),
   ("unit_cell_formula", .doc [("Fe", .num 2)]),
   ("reduced_cell_formula", .doc [("Fe", .num 1)]),
   ("pretty_formula", .str "Fe"),
   ("elements", .arr [.str "Fe"]),
   ("nelements", .num 1),
   ("is_hubbard", .bool false),
   ("hubbards", .doc []),
   ("run_type", .str "GGA"),
   ("has_vasp_completed", .bool true),
   ("input", .doc [("crystal", crystalW), ("potcar", .arr [.str "Fe"])]),
   ("output", .doc [("crystal", crystalW), ("final_energy", .num (-5)),
     ("final_energy_per_atom", .num (-2)), ("bandgap", .num 1),
     ("cbm", .num 1), ("vbm", .num 0), ("is_gap_direct", .bool true)])]

/-- Witness environment for C5/C10: one standard vasprun in `run`. -/
def envC5 : Env :=
  { envT with
    listdir := fun p => if p = "run" then ["vasprun.xml"] else []
    vasprunToDict := fun _ => some vasprunDocW
    sgOf := fun _ => some ⟨"P1", 1, "1", "triclinic", "-P 1"⟩
    coordNumsOf := fun _ => some (.arr [])
    structRoundtrip := fun _ => some .null
    oxiDecorated := fun _ => none }

def vfsC5 : List (String × String) := [("standard", "vasprun.xml")]

/-- The document the witness environment generates. -/
def dC5 : Doc := (generate_doc envC5 "run" vfsC5 false none).getD []

/-- Witness for C5 at the concrete environment. -/
theorem generated_doc_structure_witness :
    generate_doc envC5 "run" vfsC5 false none = some dC5
    ∧ hasPath dC5 ["spacegroup", "symbol"] = true
    ∧ hasPath dC5 ["analysis", "bandgap"] = true :=
  ⟨by rfl,
   (generated_doc_structure envC5 "run" vfsC5 false none dC5 (by rfl)).1,
   (generated_doc_structure envC5 "run" vfsC5 false none dC5
      (by rfl)).2.2.2.2.2.2.2.2.2.2.2.2.1⟩

/-- C10: when vasprun files are collected, `get_task_doc` hands them to
`generate_doc` in discovery (insertion) order — the sorted copy built at
source lines 171–174 is dead code with no influence on the result — and the
generated document's root-level fields (`completed_at`, `nsites`, the
formulas, `elements`, `cif`, `density`, `is_hubbard`, `hubbards`,
`run_type` — the `rootKeys` — plus `chemsys` and `output`) come from the
last element of `calculations`, while `input.crystal` comes from the
first. -/
theorem root_fields_from_last_calc (env : Env) (path : String)
    (parseDos : Bool) (af : Option Doc) (d : Doc)
    (hvf : getVasprunFiles env path ≠ [])
    (hg : generate_doc env path (getVasprunFiles env path) parseDos af
      = some d) :
    get_task_doc env path parseDos af =
      (post_process env path
        (if docTruthy d then d else process_killed_run env path)).map some
    ∧ (∃ calcs, (getVasprunFiles env path).mapM
          (fun tf => process_vasprun env path tf.1 tf.2 parseDos)
          = some calcs
        ∧ aget? d "calculations" = some (.arr (calcs.map BVal.doc))
        ∧ ∃ d1 d2, calcs.head? = some d1 ∧ calcs.getLast? = some d2
          ∧ (∀ k ∈ rootKeys, aget? d k = aget? d2 k)
          ∧ (∃ ev els ns, aget? d2 "elements" = some ev
              ∧ asArr ev = some els ∧ els.mapM asStr = some ns
              ∧ aget? d "chemsys"
                  = some (.str (String.intercalate "-" (sortStrs ns))))
          ∧ (∃ oc fe fepa, dpath? d2 ["output", "crystal"] = some oc
              ∧ dpath? d2 ["output", "final_energy"] = some fe
              ∧ dpath? d2 ["output", "final_energy_per_atom"] = some fepa
              ∧ aget? d "output" = some (outputSection oc fe fepa))
          ∧ (∃ ic, dpath? d1 ["input", "crystal"] = some ic
              ∧ aget? d "input" = some (inputSection ic))) := by
  constructor
  · unfold get_task_doc
    have hlen : 0 < (getVasprunFiles env path).length :=
      List.length_pos.mpr hvf
    rw [if_pos (by simpa using hlen), hg]
  · obtain ⟨dc, d1, d2, d3, d4, d5, d6, hdc, hd1, hd2, hd3, hd4, hd5, hd6,
      hfin⟩ := generate_doc_stages hg
    obtain ⟨⟨ana, hana, hanaget⟩, ⟨sg, hsg⟩, hfEls⟩ := genDocFinal_spec hfin
    obtain ⟨hrootIn, ⟨ic, hic, hinput3⟩, hrootOut, ⟨ev, els, ns, hev,
      hevarr, hns, hchem3⟩⟩ := genDocRoot_spec hd3
    obtain ⟨⟨oc, fe, fepa, hoc, hfe, hfepa, hout5⟩, houtOth⟩ :=
      genDocOutput_spec hd5
    have hanon := genDocAnon_spec hd4
    have hstate := genDocState_spec hd6
    have hcalcspec := genDocCalcs_spec hdc
    -- transfer from the final doc back to the root stage
    have hdTOd3 : ∀ k, k ≠ "analysis" → k ≠ "spacegroup" →
        k ≠ "last_updated" → k ≠ "state" → k ≠ "output" → k ≠ "name" →
        k ≠ "pseudo_potential" → k ≠ "anonymous_formula" →
        aget? d k = aget? d3 k := by
      intro k h1 h2 h3 h4 h5 h6 h7 h8
      rw [hfEls k h1 h2 h3, hstate k h4, houtOth k h5 h6 h7, hanon k h8]
    refine ⟨dc.2, hcalcspec.1, ?_, d1, d2, hd1, hd2, ?_, ?_, ?_, ?_⟩
    · rw [hdTOd3 _ (by decide) (by decide) (by decide) (by decide)
        (by decide) (by decide) (by decide) (by decide),
        hrootOut _ (by decide) (by decide) (by decide)]
      exact hcalcspec.2
    · intro k hk
      have hdis : k ≠ "analysis" ∧ k ≠ "spacegroup" ∧ k ≠ "last_updated"
          ∧ k ≠ "state" ∧ k ≠ "output" ∧ k ≠ "name"
          ∧ k ≠ "pseudo_potential" ∧ k ≠ "anonymous_formula" := by
        fin_cases hk <;>
          exact ⟨by decide, by decide, by decide, by decide, by decide,
            by decide, by decide, by decide⟩
      rw [hdTOd3 k hdis.1 hdis.2.1 hdis.2.2.1 hdis.2.2.2.1 hdis.2.2.2.2.1
        hdis.2.2.2.2.2.1 hdis.2.2.2.2.2.2.1 hdis.2.2.2.2.2.2.2]
      exact hrootIn k hk
    · refine ⟨ev, els, ns, hev, hevarr, hns, ?_⟩
      rw [hdTOd3 _ (by decide) (by decide) (by decide) (by decide)
        (by decide) (by decide) (by decide) (by decide)]
      exact hchem3
    · refine ⟨oc, fe, fepa, hoc, hfe, hfepa, ?_⟩
      rw [hfEls _ (by decide) (by decide) (by decide), hstate _ (by decide)]
      exact hout5
    · refine ⟨ic, hic, ?_⟩
      rw [hdTOd3 _ (by decide) (by decide) (by decide) (by decide)
        (by decide) (by decide) (by decide) (by decide)]
      exact hinput3

/-- Witness environment for C10: two vasprun files whose discovery order
(`relax2` before `relax1`) differs from the sorted key order. -/
def envC10 : Env :=
  { envC5 with
    listdir := fun p =>
      if p = "r2" then ["vasprun.xml.relax2", "vasprun.xml.relax1"]
      else [] }

def dC10 : Doc :=
  (generate_doc envC10 "r2" (getVasprunFiles envC10 "r2") false none).getD []

/-- Witness for C10: the collected files are in discovery order (`relax2`
first), which differs from the sorted copy, and the composed `get_task_doc`
equation holds there. -/
theorem root_fields_from_last_calc_witness :
    getVasprunFiles envC10 "r2"
      = [("relax2", "vasprun.xml.relax2"), ("relax1", "vasprun.xml.relax1")]
    ∧ sortAssocByKey (getVasprunFiles envC10 "r2")
        ≠ getVasprunFiles envC10 "r2"
    ∧ get_task_doc envC10 "r2" false none =
        (post_process envC10 "r2"
          (if docTruthy dC10 then dC10
           else process_killed_run envC10 "r2")).map some :=
  ⟨by decide, by decide,
   (root_fields_from_last_calc envC10 "r2" false none dC10 (by decide)
      (by rfl)).1⟩

/-- C7: `get_valid_paths` on a walk triple returns `[parent]` exactly when
`relax1` is among the subdirectories, or when the parent neither ends in
`/relax1` nor in `/relax2` and the directory holds at least one file whose
name starts with `vasprun.xml`; in every other case it returns `[]`. -/
theorem get_valid_paths_characterisation (env : Env) (parent : String)
    (subdirs files : List String) :
    get_valid_paths env (parent, subdirs, files) =
      if "relax1" ∈ subdirs
          ∨ (strEndsWith parent (osSep ++ "relax1") = false
             ∧ strEndsWith parent (osSep ++ "relax2") = false
             ∧ ∃ f ∈ env.listdir parent, strStartsWith f "vasprun.xml" = true)
      then [parent] else [] := by
  unfold get_valid_paths globStar
  by_cases h1 : "relax1" ∈ subdirs
  · simp [h1, List.contains, List.elem_iff]
  · have hc : subdirs.contains "relax1" = false := by
      simp [List.contains, List.elem_iff, h1]
    by_cases h2 : strEndsWith parent (osSep ++ "relax1") = false
    · by_cases h3 : strEndsWith parent (osSep ++ "relax2") = false
      · by_cases h4 : ∃ f ∈ env.listdir parent, strStartsWith f "vasprun.xml" = true
        · have hlen :
              0 < ((env.listdir parent).filter
                (fun f => strStartsWith f "vasprun.xml")).length := by
            obtain ⟨f, hf, hsw⟩ := h4
            exact List.length_pos.mpr
              (fun hnil => (List.filter_eq_nil.mp hnil) f hf (by simp [hsw]))
          simp [hc, h1, h2, h3, h4, hlen]
        · have hlen :
              ((env.listdir parent).filter
                (fun f => strStartsWith f "vasprun.xml")).length = 0 := by
            rw [List.length_eq_zero, List.filter_eq_nil]
            intro f hf
            simp only [Bool.not_eq_true]
            by_contra hcon
            exact h4 ⟨f, hf, by simpa using hcon⟩
          simp [hc, h1, h2, h3, h4, hlen]
      · have h3' : strEndsWith parent (osSep ++ "relax2") = true := by
          simpa using h3
        simp [hc, h1, h3']
    · have h2' : strEndsWith parent (osSep ++ "relax1") = true := by
        simpa using h2
      simp [hc, h1, h2']

/-- C8: exceptions never escape `assimilate`: its result is `False`
(`failed`) exactly when building the task document or inserting it raised,
and otherwise it is the value `_insert_doc` returned; being a total
function of the modelled state, it propagates nothing. -/
theorem assimilate_never_raises (cfg : DroneCfg) (env : Env) (st : DbState)
    (path : String) :
    (assimilate cfg env st path).2 = AssimRes.failed ↔
      get_task_doc env path cfg.parseDos (some cfg.additionalFields) = none
      ∨ ∃ d?, get_task_doc env path cfg.parseDos (some cfg.additionalFields)
            = some d?
          ∧ (_insert_doc cfg env st d?).2 = none := by
  unfold assimilate
  cases hg : get_task_doc env path cfg.parseDos (some cfg.additionalFields) with
  | none => simp
  | some dq =>
      cases hi : _insert_doc cfg env st dq with
      | mk st' r? =>
          cases r? with
          | none => simp [hi]
          | some r => simp [hi]

end Creator
